import Mathlib

/-!
# graphql-upload: the path injector `set` and the request handler `ServeHTTP`

A shallow embedding of `handler.go`.  The operations tree decoded by
`encoding/json` is an inductive type; in-place mutation of Go maps and slices
becomes a functional update of the tree that is returned; a Go runtime panic
is an explicit result.
-/

set_option linter.dupNamespace false

namespace GraphqlUpload

/-! ## Data model -/

/-- File is the Go struct `File` (handler.go, lines 59-63).  The `multipart.File`
handle is identified by the form key whose part was opened: every call of
`FormFile` opens a fresh handle, so two keys never share one. -/
structure File where
  File : String
  Filename : String
  Size : Int
deriving DecidableEq

/-- Value is what a Go `interface{}` of this program can hold: the results of
`encoding/json` decoding into `interface{}` (nil, bool, float64, string,
`[]interface{}`, `map[string]interface{}`) and an injected `File`.  A float64
is kept as its IEEE-754 bit pattern.  A Go map is a finite partial function on
keys without any order, modelled by its lookup function. -/
inductive Value where
  | null
  | bool (b : Bool)
  | number (bits : Nat)
  | str (s : String)
  | upload (f : File)
  | arr (elems : List Value)
  | obj (fields : String → Option Value)

/-- Fields is the lookup function of a `map[string]interface{}`. -/
abbrev Fields := String → Option Value

/-- The map with no key. -/
def emptyFields : Fields := fun _ => none

/-- Literal map built from key/value pairs; a later pair with the same key is
shadowed by an earlier one. -/
def fieldsOf : List (String × Value) → Fields
  | [] => emptyFields
  | (k, v) :: rest => fun key => if key = k then some v else fieldsOf rest key

/-- Part is one element of `parts` in `set`: a Go `string` or a Go `int`. -/
inductive Part where
  | key (name : String)
  | index (i : Int)
deriving DecidableEq

/-- GoPanic tells the three ways this program panics. -/
inductive GoPanic where
  | typeAssertion
  | indexOutOfRange
  | error
deriving DecidableEq

/-! ## Standard-library functions used by `set` -/

/-- Go `strings.Split(path, ".")` on the characters of the path: the empty
path yields one empty segment. -/
def splitDot : List Char → List (List Char)
  | [] => [[]]
  | c :: cs =>
    if c = '.' then [] :: splitDot cs
    else
      match splitDot cs with
      | [] => [[c]]
      | s :: ss => (c :: s) :: ss

/-- Go `regexp.MatchString("\\d+", p)`: the pattern is not anchored, so it
matches as soon as `p` contains one ASCII digit.  The pattern is a valid
constant, so the returned error is always nil. -/
def matchDigits (p : List Char) : Bool :=
  p.any Char.isDigit

/-- Outcome of Go `strconv.ParseUint(s, 10, 64)`. -/
inductive UintResult where
  | value (n : Nat)
  | syntaxError
  | rangeError
deriving DecidableEq

/-- The digit loop of `strconv.ParseUint` in base 10 with 64 bits: scanning
from the left, a byte that is not a digit is a syntax error, and an overflow
is reported as soon as it is met. -/
def parseUintLoop : Nat → List Char → UintResult
  | n, [] => UintResult.value n
  | n, c :: cs =>
    if c.isDigit then
      if n ≥ (2 ^ 64 - 1) / 10 + 1 then UintResult.rangeError
      else
        let n1 := n * 10 + (c.toNat - 48)
        if n1 > 2 ^ 64 - 1 then UintResult.rangeError
        else parseUintLoop n1 cs
    else UintResult.syntaxError

/-- Go `strconv.ParseUint(s, 10, 64)`. -/
def parseUint (s : List Char) : UintResult :=
  match s with
  | [] => UintResult.syntaxError
  | _ :: _ => parseUintLoop 0 s

/-- Go `strconv.Atoi(p)` on a 64-bit platform with the error dropped, as
`index, _ := strconv.Atoi(p)` does: 0 after a syntax error, the nearest bound
of `int` after a range error. -/
def atoi (s : List Char) : Int :=
  let neg : Bool := match s with
    | '-' :: _ => true
    | _ => false
  let body : List Char := match s with
    | '+' :: r => r
    | '-' :: r => r
    | _ => s
  match parseUint body with
  | UintResult.syntaxError => 0
  | UintResult.rangeError => if neg then -(2 ^ 63) else 2 ^ 63 - 1
  | UintResult.value un =>
    if !neg && un ≥ 2 ^ 63 then 2 ^ 63 - 1
    else if neg && un > 2 ^ 63 then -(2 ^ 63)
    else if neg then -(un : Int) else (un : Int)

/-! ## `set` (handler.go, lines 27-57) -/

/-- The body of the first loop of `set` for one segment (lines 30-37). -/
def toPart (p : List Char) : Part :=
  if matchDigits p then Part.index (atoi p) else Part.key (String.mk p)

/-- The first loop of `set` (lines 28-38): the `parts` built from `path`. -/
def parsePath (path : String) : List Part :=
  (splitDot path.toList).map toPart

/-- The second loop of `set` (lines 39-55) from cursor `m` over the remaining
`parts`.  The Go code mutates the container reached by the cursor; here the
container is rebuilt and handed back to its parent, which in Go sees the
mutation through the shared map or backing array.  `last` is `rest = []`.
A lookup of an absent key yields nil (line 46). -/
def walk (v : Value) : Value → List Part → Except GoPanic Value
  | m, [] => Except.ok m
  | m, p :: rest =>
    match p with
    | Part.key idx =>
      match m with
      | Value.obj fields =>
        if rest.isEmpty then
          Except.ok (Value.obj (Function.update fields idx (some v)))
        else
          match walk v ((fields idx).getD Value.null) rest with
          | Except.ok child => Except.ok (Value.obj (Function.update fields idx (some child)))
          | Except.error e => Except.error e
      | _ => Except.error GoPanic.typeAssertion
    | Part.index idx =>
      match m with
      | Value.arr elems =>
        if 0 ≤ idx ∧ idx < elems.length then
          if rest.isEmpty then
            Except.ok (Value.arr (elems.set idx.toNat v))
          else
            match walk v (elems.getD idx.toNat Value.null) rest with
            | Except.ok child => Except.ok (Value.arr (elems.set idx.toNat child))
            | Except.error e => Except.error e
        else Except.error GoPanic.indexOutOfRange
      | _ => Except.error GoPanic.typeAssertion

/-- SetResult is how a call of `set` ends: it returns an `error` (nil or not)
with the tree under `m` as it now is, or it panics. -/
inductive SetResult where
  | returned (err : Option String) (m : Value)
  | panicked (p : GoPanic)

/-- The Go function `set(v, m, path)`. -/
def set (v : Value) (m : Value) (path : String) : SetResult :=
  match walk v m (parsePath path) with
  | Except.ok m1 => SetResult.returned none m1
  | Except.error p => SetResult.panicked p

/-! ## The handler (handler.go, lines 14-25 and 59-209) -/

/-- Context holds the two values that `context.WithValue` attaches to every
request handed to the Executor: the inbound headers and the remote address. -/
structure Context where
  header : String → List String
  remoteAddr : String

/-- Request is the Go struct `Request` (lines 20-25).  For `Variables` none is
the nil map, the zero value of the field. -/
structure Request where
  OperationName : String
  Query : String
  Variables : Option Fields
  Context : Context

/-- Handler is the Go struct `Handler` (lines 14-18).  The Executor is a
function from the request to its result; `ρ` is the type of the serializable
results the JSON encoder writes, so `Encode` does not fail on them. -/
structure Handler (ρ : Type) where
  MaxBodySize : Int
  Executor : Request → ρ
  Client : Bool

/-- Config is the Go struct `Config` (lines 65-67). -/
structure Config where
  MaxBodySize : Int

/-- The Go function `New` (lines 72-77); `Client` keeps its zero value.  The
test file calls `New` with the executor alone (handler_test.go, lines 97-105),
which this signature does not accept; the definition follows handler.go, as
the call in example/main.go does. -/
def New {ρ : Type} (executor : Request → ρ) (config : Config) : Handler ρ :=
  { MaxBodySize := config.MaxBodySize, Executor := executor, Client := false }

/-- UploadsMap is the `map[string][]string` that `json.Unmarshal` builds from
the form field `map` (lines 132-133): its entries in the order in which the
`range` loop of line 136 visits them.  The keys of a Go map are distinct. -/
structure UploadsMap where
  entries : List (String × List String)
  nodup : (entries.map Prod.fst).Nodup

/-- MultipartForm is the request after `r.ParseMultipartForm` succeeded, as
the handler reads it: the outcome of decoding the field `map` (none when
`json.Unmarshal` returns an error), the file name and size that `r.FormFile`
finds for a key (none when it returns an error), and the outcome of decoding
the field `operations` into an `interface{}`. -/
structure MultipartForm where
  uploadsMap : Option UploadsMap
  formFile : String → Option (String × Int)
  operations : Option Value

/-- HttpRequest is the `*http.Request` as the handler reads it: its fields
`Method`, `Header` and `RemoteAddr`, and what the library calls made on it
return.  `query` and `operationName` are `r.URL.Query().Get` of these
parameters, "" when absent.  `variablesParam` is none when the parameter
`variables` has length 0, `some none` when `json.Unmarshal` finds no JSON text
in it, and `some (some v)` when the text is the JSON value `v`.  `body` is the
outcome of `json.NewDecoder(r.Body).Decode(&operations)`, none for an error.
`multipartForm n` is the outcome of `r.ParseMultipartForm(n)`, none for an
error. -/
structure HttpRequest where
  Method : String
  query : String
  variablesParam : Option (Option Value)
  operationName : String
  Header : String → List String
  RemoteAddr : String
  body : Option Value
  multipartForm : Int → Option MultipartForm

/-- RangeOrder is the order, left open by Go, in which the `range` loop of
line 157 visits the map `uploads`: some rearrangement of its entries. -/
structure RangeOrder where
  visit : List (File × List String) → List (File × List String)
  visit_perm : ∀ us, (visit us).Perm us

/-- Body is what the handler wrote to the response: nothing, the text of
`http.Error`, one encoded result, or an encoded sequence of results. -/
inductive Body (ρ : Type) where
  | empty
  | text (message : String)
  | result (r : ρ)
  | results (rs : List ρ)

/-- Response is the status code, `Content-Type` header and body that the
client receives.  The status is 200 when the handler never calls
`WriteHeader` (the default of `net/http`). -/
structure Response (ρ : Type) where
  status : Nat
  contentType : String
  body : Body ρ

/-- Outcome of `ServeHTTP`: it returns, leaving a response, or it panics. -/
inductive Outcome (ρ : Type) where
  | responded (resp : Response ρ)
  | panicked (p : GoPanic)

/-- Run is one execution of `ServeHTTP`: the requests the Executor was
invoked with, in order, and how the execution ended. -/
structure Run (ρ : Type) where
  calls : List Request
  outcome : Outcome ρ

/-- Go `r.Header.Get(key)`: the first value of the header, or "". -/
def headerGet (header : String → List String) (key : String) : String :=
  (header key).headD ""

/-- Go `strings.SplitN(s, ";", 2)[0]` (line 117): the text before the first
semicolon. -/
def beforeSemicolon (s : String) : String :=
  String.mk (s.toList.takeWhile (fun c => c != ';'))

/-- The context built at lines 85-86, 177-178 and 196-197. -/
def requestContext (r : HttpRequest) : Context :=
  { header := r.Header, remoteAddr := r.RemoteAddr }

/-- Go `json.Unmarshal(data, &request.Variables)` (line 100) where the target
is a nil `map[string]interface{}` and `data` holds the JSON value `v`: an
object fills a new map, `null` leaves the nil map and is no error, any other
value is an `UnmarshalTypeError`.  The outer none is the error. -/
def unmarshalVariables : Option Value → Option (Option Fields)
  | none => none
  | some Value.null => some none
  | some (Value.obj fields) => some (some fields)
  | some _ => none

/-- The response of `http.Error(w, message, http.StatusBadRequest)`. -/
def badRequestText {ρ : Type} (message : String) : Response ρ :=
  { status := 400, contentType := "text/plain; charset=utf-8", body := Body.text (message ++ "\n") }

/-- The response after `json.NewEncoder(w).Encode` wrote `body`.  The encoder
returns an error (lines 113, 179, 200) only for a value that `encoding/json`
cannot marshal; the results of type `ρ` are serializable. -/
def okJson {ρ : Type} (body : Body ρ) : Response ρ :=
  { status := 200, contentType := "application/json; charset=utf-8", body := body }

/-- The GET branch of `ServeHTTP` (lines 84-115).  The block of lines 107-111
reads the parameter `operationName`, though its comment at line 106 says
`Get variables`. -/
def serveGet {ρ : Type} (self : Handler ρ) (r : HttpRequest) : Run ρ :=
  if r.query.length = 0 then
    { calls := [], outcome := Outcome.responded (badRequestText "Missing query") }
  else
    let decoded : Option (Option Fields) :=
      match r.variablesParam with
      | none => some (some emptyFields)
      | some text => unmarshalVariables text
    match decoded with
    | none => { calls := [], outcome := Outcome.responded (badRequestText "Bad variables") }
    | some vars =>
      let request : Request :=
        { OperationName := r.operationName, Query := r.query, Variables := vars,
          Context := requestContext r }
      { calls := [request],
        outcome := Outcome.responded (okJson (Body.result (self.Executor request))) }

/-- Lines 136-148: every key of the uploads map is opened with `r.FormFile`
and stored in `uploads` under its `File`; none when `FormFile` returns an
error (the handler panics).  Distinct keys give distinct files, so no entry of
`uploads` is overwritten. -/
def openUploads (form : MultipartForm) :
    List (String × List String) → Option (List (File × List String))
  | [] => some []
  | (key, path) :: rest =>
    match form.formFile key with
    | none => none
    | some (filename, size) =>
      match openUploads form rest with
      | none => none
      | some uploads => some (({ File := key, Filename := filename, Size := size }, path) :: uploads)

/-- The inner loop of lines 158-162 for one file: `set` is applied to the
operations for every path of the file, in order. -/
def setPaths (file : File) : Value → List String → Except GoPanic Value
  | operations, [] => Except.ok operations
  | operations, path :: rest =>
    match set (Value.upload file) operations path with
    | SetResult.returned none operations1 => setPaths file operations1 rest
    | SetResult.returned (some _) _ => Except.error GoPanic.error
    | SetResult.panicked p => Except.error p

/-- The loop of lines 157-163 over the uploads in the order visited. -/
def setUploads : Value → List (File × List String) → Except GoPanic Value
  | operations, [] => Except.ok operations
  | operations, (file, paths) :: rest =>
    match setPaths file operations paths with
    | Except.ok operations1 => setUploads operations1 rest
    | Except.error p => Except.error p

/-- The `multipart/form-data` case (lines 124-164): the operations value that
reaches the type switch, or the panic that ends the request. -/
def multipartOperations {ρ : Type} (self : Handler ρ) (ord : RangeOrder) (r : HttpRequest) :
    Except GoPanic Value :=
  match r.multipartForm self.MaxBodySize with
  | none => Except.error GoPanic.error
  | some form =>
    match form.uploadsMap with
    | none => Except.error GoPanic.error
    | some uploadsMap =>
      match openUploads form uploadsMap.entries with
      | none => Except.error GoPanic.error
      | some uploads =>
        match form.operations with
        | none => Except.error GoPanic.error
        | some operations => setUploads operations (ord.visit uploads)

/-- The content-type switch of the POST branch (lines 117-164): the value of
`operations` that reaches the type switch.  With no matching case the variable
keeps its zero value nil. -/
def postOperations {ρ : Type} (self : Handler ρ) (ord : RangeOrder) (r : HttpRequest) :
    Except GoPanic Value :=
  let contentType := beforeSemicolon (headerGet r.Header "Content-Type")
  if contentType = "text/plain" ∨ contentType = "application/json" then
    match r.body with
    | none => Except.error GoPanic.error
    | some operations => Except.ok operations
  else if contentType = "multipart/form-data" then
    multipartOperations self ord r
  else Except.ok Value.null

/-- Lines 168-170, 171-173: a string field of a single operation.  An absent
key and a nil value keep the zero value ""; any other value must pass the
type assertion `value.(string)`. -/
def stringField (data : Fields) (name : String) : Except GoPanic String :=
  match data name with
  | none => Except.ok ""
  | some Value.null => Except.ok ""
  | some (Value.str s) => Except.ok s
  | some _ => Except.error GoPanic.typeAssertion

/-- Lines 174-176: the variables of a single operation. -/
def variablesField (data : Fields) : Except GoPanic (Option Fields) :=
  match data "variables" with
  | none => Except.ok none
  | some Value.null => Except.ok none
  | some (Value.obj fields) => Except.ok (some fields)
  | some _ => Except.error GoPanic.typeAssertion

/-- Lines 167-178: the request built from a single operation mapping. -/
def singleRequest (ctx : Context) (data : Fields) : Except GoPanic Request :=
  match stringField data "operationName" with
  | Except.error p => Except.error p
  | Except.ok operationName =>
    match stringField data "query" with
    | Except.error p => Except.error p
    | Except.ok query =>
      match variablesField data with
      | Except.error p => Except.error p
      | Except.ok vars =>
        Except.ok { OperationName := operationName, Query := query, Variables := vars,
                    Context := ctx }

/-- Lines 187-189, 190-192: a string field of a batch element.  Only an
absent key keeps the zero value; a present value, nil included, must pass the
type assertion `value.(string)`. -/
def batchStringField (data : Fields) (name : String) : Except GoPanic String :=
  match data name with
  | none => Except.ok ""
  | some (Value.str s) => Except.ok s
  | some _ => Except.error GoPanic.typeAssertion

/-- Lines 193-195: the variables of a batch element. -/
def batchVariablesField (data : Fields) : Except GoPanic (Option Fields) :=
  match data "variables" with
  | none => Except.ok none
  | some (Value.obj fields) => Except.ok (some fields)
  | some _ => Except.error GoPanic.typeAssertion

/-- Lines 185-197: the request built from one element of a batch. -/
def batchRequest (ctx : Context) (operation : Value) : Except GoPanic Request :=
  match operation with
  | Value.obj data =>
    match batchStringField data "operationName" with
    | Except.error p => Except.error p
    | Except.ok operationName =>
      match batchStringField data "query" with
      | Except.error p => Except.error p
      | Except.ok query =>
        match batchVariablesField data with
        | Except.error p => Except.error p
        | Except.ok vars =>
          Except.ok { OperationName := operationName, Query := query, Variables := vars,
                      Context := ctx }
  | _ => Except.error GoPanic.typeAssertion

/-- The loop of lines 184-199: the requests the Executor was invoked with, in
order, and either the results stored in `result` or the panic that stopped the
loop. -/
def batchLoop {ρ : Type} (self : Handler ρ) (ctx : Context) :
    List Value → List Request × Except GoPanic (List ρ)
  | [] => ([], Except.ok [])
  | operation :: rest =>
    match batchRequest ctx operation with
    | Except.error p => ([], Except.error p)
    | Except.ok request =>
      let result := self.Executor request
      match batchLoop self ctx rest with
      | (calls, Except.ok results) => (request :: calls, Except.ok (result :: results))
      | (calls, Except.error p) => (request :: calls, Except.error p)

/-- The type switch on `operations` (lines 165-206). -/
def dispatch {ρ : Type} (self : Handler ρ) (ctx : Context) (operations : Value) : Run ρ :=
  match operations with
  | Value.obj data =>
    match singleRequest ctx data with
    | Except.error p => { calls := [], outcome := Outcome.panicked p }
    | Except.ok request =>
      { calls := [request],
        outcome := Outcome.responded (okJson (Body.result (self.Executor request))) }
  | Value.arr data =>
    match batchLoop self ctx data with
    | (calls, Except.ok results) =>
      { calls := calls, outcome := Outcome.responded (okJson (Body.results results)) }
    | (calls, Except.error p) => { calls := calls, outcome := Outcome.panicked p }
  | _ =>
    { calls := [],
      outcome := Outcome.responded
        { status := 400, contentType := "application/json; charset=utf-8", body := Body.empty } }

/-- The POST branch of `ServeHTTP` (lines 116-206). -/
def servePost {ρ : Type} (self : Handler ρ) (ord : RangeOrder) (r : HttpRequest) : Run ρ :=
  match postOperations self ord r with
  | Except.error p => { calls := [], outcome := Outcome.panicked p }
  | Except.ok operations => dispatch self (requestContext r) operations

/-- The Go method `Handler.ServeHTTP` (lines 79-209).  A method other than GET
and POST runs neither branch: the handler returns having written nothing but
the `Content-Type` header of line 80. -/
def ServeHTTP {ρ : Type} (self : Handler ρ) (ord : RangeOrder) (r : HttpRequest) : Run ρ :=
  if r.Method = "GET" then serveGet self r
  else if r.Method = "POST" then servePost self ord r
  else
    { calls := [],
      outcome := Outcome.responded
        { status := 200, contentType := "application/json; charset=utf-8", body := Body.empty } }

/-! ## Slots of a tree: the vocabulary of the statements -/

/-- The access `m[p]` of lines 44-52 does not panic: `m` passes the type
assertion for `p`, and an index lies inside the slice. -/
def hasSlot : Value → Part → Bool
  | Value.obj _, Part.key _ => true
  | Value.arr elems, Part.index i => decide (0 ≤ i ∧ i < elems.length)
  | _, _ => false

/-- The value held by the slot `p` of the container `m`, none when `m` has no
such slot (wrong shape, absent key, index outside the sequence). -/
def child : Value → Part → Option Value
  | Value.obj fields, Part.key k => fields k
  | Value.arr elems, Part.index i => if 0 ≤ i then elems[i.toNat]? else none
  | _, _ => none

/-- The container `m` with `x` stored in its slot `p`. -/
def putSlot : Value → Part → Value → Value
  | Value.obj fields, Part.key k, x => Value.obj (Function.update fields k (some x))
  | Value.arr elems, Part.index i, x => Value.arr (elems.set i.toNat x)
  | m, _, _ => m

/-- The panic of the access `m[p]` when it has no slot. -/
def panicAt : Value → Part → GoPanic
  | Value.arr _, Part.index _ => GoPanic.indexOutOfRange
  | _, _ => GoPanic.typeAssertion

/-- The value found by following the parts `ps` from `m`, none when some part
names no slot. -/
def slotAt : Value → List Part → Option Value
  | m, [] => some m
  | m, p :: rest =>
    match child m p with
    | some c => slotAt c rest
    | none => none

/-- A mapping or a sequence. -/
def isContainer : Value → Bool
  | Value.obj _ => true
  | Value.arr _ => true
  | _ => false

/-- Two containers of the same kind: two mappings, or two sequences of the
same length. -/
def sameKind : Value → Value → Bool
  | Value.obj _, Value.obj _ => true
  | Value.arr xs, Value.arr ys => decide (xs.length = ys.length)
  | _, _ => false

/-- The parts `ps` can be written in `m`: every part but the last leads to an
existing container, and that container has a slot for the last part. -/
def writable : Value → List Part → Bool
  | _, [] => false
  | m, p :: rest =>
    if rest.isEmpty then hasSlot m p
    else
      match child m p with
      | some c => writable c rest
      | none => false

/-- Two paths are independent when neither is an initial segment of the
other. -/
def independent (ps qs : List Part) : Prop :=
  ¬ ps <+: qs ∧ ¬ qs <+: ps

instance (ps qs : List Part) : Decidable (independent ps qs) := by
  unfold independent
  infer_instance

/-- Every segment of the path is a run of decimal digits or holds no digit at
all, so that the unanchored pattern of `set` and the anchored one agree. -/
def unambiguous (path : String) : Bool :=
  (splitDot path.toList).all (fun seg => !seg.any Char.isDigit || seg.all Char.isDigit)

/-- The classification of a segment in the words of the specification: an
index if and only if the whole segment is one or more decimal digits (the
integer being the one `strconv.Atoi` reads), a key in every other case. -/
def specPart (seg : List Char) : Part :=
  if !seg.isEmpty && seg.all Char.isDigit then Part.index (atoi seg)
  else Part.key (String.mk seg)

/-- The parts of a path in the words of the specification. -/
def specPath (path : String) : List Part :=
  (splitDot path.toList).map specPart

/-- Walking `ps` from `m` as `set` does, some part meets a value of the wrong
shape: a key applied to something that is not a mapping, or an index applied
to something that is not a sequence.  An absent key leaves the cursor nil
(line 46). -/
def meetsWrongShape : Value → List Part → Bool
  | _, [] => false
  | m, p :: rest =>
    match m, p with
    | Value.obj fields, Part.key k =>
      !rest.isEmpty && meetsWrongShape ((fields k).getD Value.null) rest
    | Value.arr elems, Part.index i =>
      decide (0 ≤ i ∧ i < elems.length) && !rest.isEmpty &&
        meetsWrongShape (elems.getD i.toNat Value.null) rest
    | _, _ => true

/-- The parts `ps` lead to a sequence and end in an index that the sequence
does not have. -/
def targetsMissingIndex (m : Value) (ps : List Part) : Bool :=
  match slotAt m ps.dropLast, ps.getLast? with
  | some (Value.arr elems), some (Part.index i) => !decide (0 ≤ i ∧ i < elems.length)
  | _, _ => false

/-- What `set` stores in the slot of the current part: the value `v` itself
when the part is the last one, else the container below it after the walk
over the remaining parts. -/
def walkInner (v : Value) (c : Option Value) (rest : List Part) : Except GoPanic Value :=
  if rest.isEmpty then Except.ok v else walk v (c.getD Value.null) rest

/-! ## Operations: the vocabulary of the statements on the handler -/

/-- An absent key or a string. -/
def absentOrString : Option Value → Bool
  | none => true
  | some (Value.str _) => true
  | _ => false

/-- An absent key or a mapping. -/
def absentOrMapping : Option Value → Bool
  | none => true
  | some (Value.obj _) => true
  | _ => false

/-- A mapping with the shape of an Operation: `operationName` and `query`,
where present, hold strings and `variables`, where present, holds a
mapping. -/
def isOperation : Value → Bool
  | Value.obj data =>
    absentOrString (data "operationName") && absentOrString (data "query") &&
      absentOrMapping (data "variables")
  | _ => false

/-- The Operation that the specification builds from a mapping: the strings
under `operationName` and `query` ("" without one), the mapping under
`variables` (the nil map without one), and the context of the request. -/
def operationOf (ctx : Context) : Value → Request
  | Value.obj data =>
    { OperationName := match data "operationName" with
        | some (Value.str s) => s
        | _ => "",
      Query := match data "query" with
        | some (Value.str s) => s
        | _ => "",
      Variables := match data "variables" with
        | some (Value.obj fields) => some fields
        | _ => none,
      Context := ctx }
  | _ => { OperationName := "", Query := "", Variables := none, Context := ctx }

/-- The response of line 204, `w.WriteHeader(http.StatusBadRequest)`. -/
def badRequestEmpty {ρ : Type} : Response ρ :=
  { status := 400, contentType := "application/json; charset=utf-8", body := Body.empty }

/-- Some entry of the uploads declares a path. -/
def declaresPath (uploads : List (File × List String)) : Bool :=
  uploads.any (fun u => !u.2.isEmpty)

/-- Some key of the file map declares a path. -/
def mapDeclaresPath (entries : List (String × List String)) : Bool :=
  entries.any (fun e => !e.2.isEmpty)

/-- Every key of the file map has a file part in the form: `r.FormFile`
returns no error for it. -/
def partsPresent (form : MultipartForm) (entries : List (String × List String)) : Bool :=
  entries.all (fun e => (form.formFile e.1).isSome)

/-- The request of a GET: query and operation name are the parameters of the
query string, the variables are `vars`, the context is that of the request. -/
def getRequest (r : HttpRequest) (vars : Option Fields) : Request :=
  { OperationName := r.operationName, Query := r.query, Variables := vars,
    Context := requestContext r }

/-- The run in which the Executor is invoked once, with `request`, and its
result is encoded with the status 200. -/
def invokedOnce {ρ : Type} (self : Handler ρ) (request : Request) : Run ρ :=
  { calls := [request],
    outcome := Outcome.responded (okJson (Body.result (self.Executor request))) }

/-- The run in which the Executor is not invoked and the response is
`resp`. -/
def rejected {ρ : Type} (resp : Response ρ) : Run ρ :=
  { calls := [], outcome := Outcome.responded resp }

/-- The run in which the Executor is not invoked and the handler panics. -/
def aborted {ρ : Type} (p : GoPanic) : Run ρ :=
  { calls := [], outcome := Outcome.panicked p }

/-- JSON `null`. -/
def isNull : Value → Bool
  | Value.null => true
  | _ => false

/-- A JSON object. -/
def isMapping : Value → Bool
  | Value.obj _ => true
  | _ => false

/-- The calls of `set` that the loops of lines 157-163 make for the uploads,
in order: one for every file and every path of the file. -/
def uploadCalls (uploads : List (File × List String)) : List (File × String) :=
  uploads.flatMap (fun u => u.2.map (fun path => (u.1, path)))

/-- The calls of `set` made one after the other on the operations, up to the
first panic. -/
def setEach : Value → List (File × String) → Except GoPanic Value
  | m, [] => Except.ok m
  | m, (file, path) :: rest =>
    match walk (Value.upload file) m (parsePath path) with
    | Except.ok m1 => setEach m1 rest
    | Except.error e => Except.error e

/-- The paths of two calls of `set` are independent. -/
def callsIndependent (a b : File × String) : Prop :=
  independent (parsePath a.2) (parsePath b.2)

/-! ## Sample values -/

/-- The uploaded file `a.txt` of four bytes, opened from the form key "0". -/
def fileA : File := { File := "0", Filename := "a.txt", Size := 4 }

/-- The uploaded file `b.txt` of four bytes, opened from the form key "1". -/
def fileB : File := { File := "1", Filename := "b.txt", Size := 4 }

/-- The operations `{"variables": {"files": [null, null]}}`. -/
def opsFileList : Value :=
  Value.obj (fieldsOf [("variables", Value.obj (fieldsOf [("files", Value.arr [Value.null, Value.null])]))])

/-- The operations `{"variables": {"files": []}}`. -/
def opsEmptyList : Value :=
  Value.obj (fieldsOf [("variables", Value.obj (fieldsOf [("files", Value.arr [])]))])

/-- The operations `{"variables": {"file1": null}}`. -/
def opsFile1 : Value :=
  Value.obj (fieldsOf [("variables", Value.obj (fieldsOf [("file1", Value.null)]))])

/-- The operations `{"variables": null}`. -/
def opsNullVariables : Value :=
  Value.obj (fieldsOf [("variables", Value.null)])

/-- A handler whose Executor answers with the query of the request. -/
def echoHandler : Handler String :=
  New (fun request => request.Query) { MaxBodySize := 1048576 }

/-- The order of visit that keeps the entries as they are. -/
def visitInOrder : RangeOrder :=
  { visit := fun us => us, visit_perm := fun us => List.Perm.refl us }

/-- A header with the one field `Content-Type`. -/
def contentTypeHeader (value : String) : String → List String :=
  fun key => if key = "Content-Type" then [value] else []

/-- A GET request with the query `{ version }` and no other parameter. -/
def getVersion : HttpRequest :=
  { Method := "GET", query := "{ version }", variablesParam := none, operationName := "",
    Header := fun _ => [], RemoteAddr := "127.0.0.1:4000", body := none,
    multipartForm := fun _ => none }

/-- The GET request `?query={ version }&variables=null`. -/
def getNullVariables : HttpRequest :=
  { getVersion with variablesParam := some (some Value.null) }

/-- A PUT request. -/
def putRequest : HttpRequest :=
  { getVersion with Method := "PUT" }

/-- A POST request of type `application/json` with the decoded body `body`. -/
def postJson (body : Value) : HttpRequest :=
  { getVersion with
    Method := "POST"
    query := ""
    Header := contentTypeHeader "application/json"
    body := some body }

/-- A POST request of type `application/xml`. -/
def postXml : HttpRequest :=
  { getVersion with Method := "POST", query := "", Header := contentTypeHeader "application/xml" }

/-- The operation mapping `{"query": "{ version }"}`. -/
def opVersion : Fields :=
  fieldsOf [("query", Value.str "{ version }")]

/-- The operation mapping `{"query": "{ version }", "operationName": null}`. -/
def opNullName : Fields :=
  fieldsOf [("query", Value.str "{ version }"), ("operationName", Value.null)]

/-- The mapping `{"query": 5}`, with 5 as the float64 0x4014000000000000. -/
def opNumberQuery : Fields :=
  fieldsOf [("query", Value.number 0x4014000000000000)]

/-- The uploads map `{"0": ["variables.files.0"]}`. -/
def mapOneFile : UploadsMap :=
  { entries := [("0", ["variables.files.0"])], nodup := by decide }

/-- The uploads map `{"0": ["variables.files.0"], "1": ["variables.files.5"]}`. -/
def mapMissingIndex : UploadsMap :=
  { entries := [("0", ["variables.files.0"]), ("1", ["variables.files.5"])], nodup := by decide }

/-- A multipart form with the file parts "0" (`a.txt`) and "1" (`b.txt`). -/
def formWith (uploadsMap : UploadsMap) (operations : Value) : MultipartForm :=
  { uploadsMap := some uploadsMap,
    formFile := fun key =>
      if key = "0" then some ("a.txt", 4) else if key = "1" then some ("b.txt", 4) else none,
    operations := some operations }

/-- A POST request of type `multipart/form-data` with the form `form`. -/
def postMultipart (form : MultipartForm) : HttpRequest :=
  { getVersion with
    Method := "POST"
    query := ""
    Header := contentTypeHeader "multipart/form-data; boundary=x"
    multipartForm := fun _ => some form }

/-- The operations `{"variables": {"file1": null, "file2": null}}`. -/
def opsTwoFiles : Value :=
  Value.obj (fieldsOf [("variables",
    Value.obj (fieldsOf [("file1", Value.null), ("file2", Value.null)]))])

/-- The uploads map `{"0": []}`: a key with a file part and no path. -/
def mapNoPath : UploadsMap :=
  { entries := [("0", [])], nodup := by decide }

/-- The uploads map `{"9": []}`: a key without a file part and no path. -/
def mapNoFilePart : UploadsMap :=
  { entries := [("9", [])], nodup := by decide }

/-! ## Lemmas on slots -/

theorem walk_cons (v m : Value) (p : Part) (rest : List Part) :
    walk v m (p :: rest) =
      if hasSlot m p then
        if rest.isEmpty then Except.ok (putSlot m p v)
        else
          match walk v ((child m p).getD Value.null) rest with
          | Except.ok c => Except.ok (putSlot m p c)
          | Except.error e => Except.error e
      else Except.error (panicAt m p) := by
  cases m <;> cases p <;> simp [walk, hasSlot, putSlot, panicAt, child]
  rename_i elems i
  by_cases h : 0 ≤ i ∧ i < elems.length
  · simp [h, List.getD_eq_getElem?_getD]
  · simp [h]

theorem child_putSlot_same (m : Value) (p : Part) (x : Value) (h : hasSlot m p = true) :
    child (putSlot m p x) p = some x := by
  cases m <;> cases p <;> simp [hasSlot] at h <;> simp [putSlot, child]
  rename_i elems i
  have h1 : i.toNat < elems.length := by omega
  simp [h.1, List.getElem?_set, h1]

theorem child_putSlot_other (m : Value) (p q : Part) (x : Value) (h : hasSlot m p = true)
    (hpq : p ≠ q) : child (putSlot m p x) q = child m q := by
  cases m <;> cases p <;> cases q <;> simp [hasSlot] at h <;> simp [putSlot, child]
  · rename_i elems i j
    by_cases hj : 0 ≤ j
    · have hne : i.toNat ≠ j.toNat := by
        intro he
        apply hpq
        congr 1
        omega
      simp [hj, List.getElem?_set, hne]
    · simp [hj]
  · rename_i fields k k2
    have hne : k2 ≠ k := fun he => hpq (by rw [he])
    simp [Function.update, hne]

theorem hasSlot_putSlot (m : Value) (p q : Part) (x : Value) :
    hasSlot (putSlot m p x) q = hasSlot m q := by
  cases m <;> cases p <;> cases q <;> simp [putSlot, hasSlot]

theorem panicAt_putSlot (m : Value) (p q : Part) (x : Value) :
    panicAt (putSlot m p x) q = panicAt m q := by
  cases m <;> cases p <;> cases q <;> simp [putSlot, panicAt]

theorem putSlot_putSlot_same (m : Value) (p : Part) (x y : Value) :
    putSlot (putSlot m p x) p y = putSlot m p y := by
  cases m <;> cases p <;> simp [putSlot]

theorem putSlot_comm (m : Value) (p q : Part) (x y : Value) (hp : hasSlot m p = true)
    (hq : hasSlot m q = true) (hpq : p ≠ q) :
    putSlot (putSlot m p x) q y = putSlot (putSlot m q y) p x := by
  cases m <;> cases p <;> cases q <;> simp [hasSlot] at hp hq <;> simp [putSlot]
  · rename_i elems i j
    have hne : i.toNat ≠ j.toNat := by
      intro he
      apply hpq
      congr 1
      omega
    exact List.set_comm _ _ _ hne
  · rename_i fields k k2
    have hne : k ≠ k2 := fun he => hpq (by rw [he])
    exact Function.update_comm hne _ _ _

theorem child_of_hasSlot_false (m : Value) (p : Part) (h : hasSlot m p = false) :
    child m p = none := by
  cases m <;> cases p <;> simp [hasSlot] at h <;> simp [child]
  rename_i elems i
  intro h0
  have := h h0
  omega

theorem sameKind_putSlot (m : Value) (p : Part) (x : Value) (h : hasSlot m p = true) :
    sameKind m (putSlot m p x) = true := by
  cases m <;> cases p <;> simp [hasSlot] at h <;> simp [putSlot, sameKind]

theorem walk_eq_error_of_not_container (v m : Value) (p : Part) (rest : List Part)
    (h : isContainer m = false) : walk v m (p :: rest) = Except.error GoPanic.typeAssertion := by
  cases m <;> cases p <;> simp [isContainer] at h <;> simp [walk]

theorem walk_null_cons (v : Value) (p : Part) (rest : List Part) :
    walk v Value.null (p :: rest) = Except.error GoPanic.typeAssertion :=
  walk_eq_error_of_not_container v Value.null p rest rfl

theorem hasSlot_of_child (m : Value) (p : Part) (c : Value) (h : child m p = some c) :
    hasSlot m p = true := by
  by_contra hn
  have hf : hasSlot m p = false := by simpa using hn
  rw [child_of_hasSlot_false m p hf] at h
  exact Option.noConfusion h

theorem walk_cons_inner (v m : Value) (p : Part) (rest : List Part) :
    walk v m (p :: rest) =
      if hasSlot m p then
        match walkInner v (child m p) rest with
        | Except.ok c => Except.ok (putSlot m p c)
        | Except.error e => Except.error e
      else Except.error (panicAt m p) := by
  rw [walk_cons, walkInner]
  by_cases hr : rest.isEmpty = true <;> simp [hr]

theorem walk_ok_iff (v m m1 : Value) (p : Part) (rest : List Part) :
    walk v m (p :: rest) = Except.ok m1 ↔
      hasSlot m p = true ∧ ∃ x, walkInner v (child m p) rest = Except.ok x ∧ m1 = putSlot m p x := by
  rw [walk_cons_inner]
  by_cases hs : hasSlot m p = true
  · simp only [hs, if_true, true_and]
    cases hw : walkInner v (child m p) rest with
    | ok c =>
      constructor
      · intro h
        exact ⟨c, rfl, (Except.ok.inj h).symm⟩
      · rintro ⟨x, hx, rfl⟩
        rw [Except.ok.inj hx]
    | error e =>
      constructor
      · intro h
        exact Except.noConfusion h
      · rintro ⟨x, hx, _⟩
        exact Except.noConfusion hx
  · simp [hs]

theorem walkInner_ok_cons (v x : Value) (c : Option Value) (q : Part) (rest : List Part)
    (h : walkInner v c (q :: rest) = Except.ok x) :
    ∃ c0, c = some c0 ∧ walk v c0 (q :: rest) = Except.ok x := by
  simp only [walkInner, List.isEmpty_cons, Bool.false_eq_true, if_false] at h
  cases c with
  | none =>
    simp only [Option.getD_none] at h
    rw [walk_null_cons] at h
    exact Except.noConfusion h
  | some c0 => exact ⟨c0, rfl, h⟩

theorem walk_ok_of_writable (v : Value) :
    ∀ (ps : List Part) (m : Value), writable m ps = true → ∃ m1, walk v m ps = Except.ok m1
  | [], m, h => by simp [writable] at h
  | p :: rest, m, h => by
    cases rest with
    | nil =>
      simp [writable] at h
      exact ⟨putSlot m p v, by simp [walk_cons, h]⟩
    | cons q rest2 =>
      simp only [writable, List.isEmpty_cons, Bool.false_eq_true, if_false] at h
      cases hc : child m p with
      | none => simp [hc] at h
      | some c =>
        simp only [hc] at h
        obtain ⟨c1, hc1⟩ := walk_ok_of_writable v (q :: rest2) c h
        refine ⟨putSlot m p c1, ?_⟩
        rw [walk_ok_iff]
        exact ⟨hasSlot_of_child m p c hc, c1, by simp [walkInner, hc, hc1], rfl⟩

theorem writable_of_walk_ok (v : Value) :
    ∀ (ps : List Part) (m m1 : Value), ps ≠ [] → walk v m ps = Except.ok m1 → writable m ps = true
  | [], _, _, hne, _ => absurd rfl hne
  | p :: rest, m, m1, _, h => by
    rw [walk_ok_iff] at h
    obtain ⟨hs, x, hx, _⟩ := h
    cases rest with
    | nil => simp [writable, hs]
    | cons q rest2 =>
      obtain ⟨c0, hc0, hw⟩ := walkInner_ok_cons v x _ q rest2 hx
      simp only [writable, List.isEmpty_cons, Bool.false_eq_true, if_false, hc0]
      exact writable_of_walk_ok v (q :: rest2) c0 x (List.cons_ne_nil _ _) hw

theorem slotAt_walk_self (v : Value) :
    ∀ (ps : List Part) (m m1 : Value), ps ≠ [] → walk v m ps = Except.ok m1 →
      slotAt m1 ps = some v
  | [], _, _, hne, _ => absurd rfl hne
  | p :: rest, m, m1, _, h => by
    rw [walk_ok_iff] at h
    obtain ⟨hs, x, hx, rfl⟩ := h
    cases rest with
    | nil =>
      simp only [walkInner, List.isEmpty_nil, if_true] at hx
      have hxv : v = x := Except.ok.inj hx
      subst hxv
      simp only [slotAt, child_putSlot_same m p v hs]
    | cons q rest2 =>
      obtain ⟨c0, _, hw⟩ := walkInner_ok_cons v x _ q rest2 hx
      simp only [slotAt, child_putSlot_same m p x hs]
      exact slotAt_walk_self v (q :: rest2) c0 x (List.cons_ne_nil _ _) hw

theorem slotAt_walk_independent (v : Value) :
    ∀ (ps qs : List Part) (m m1 : Value), walk v m ps = Except.ok m1 → independent qs ps →
      slotAt m1 qs = slotAt m qs
  | [], qs, _, _, _, hi => absurd List.nil_prefix hi.2
  | _ :: _, [], _, _, _, hi => absurd List.nil_prefix hi.1
  | p :: rest, q :: qs, m, m1, h, hi => by
    rw [walk_ok_iff] at h
    obtain ⟨hs, x, hx, rfl⟩ := h
    by_cases hpq : p = q
    · subst hpq
      have hi2 : independent qs rest := by
        constructor
        · intro hp
          exact hi.1 (List.cons_prefix_cons.2 ⟨rfl, hp⟩)
        · intro hp
          exact hi.2 (List.cons_prefix_cons.2 ⟨rfl, hp⟩)
      cases rest with
      | nil => exact absurd List.nil_prefix hi2.2
      | cons r rest2 =>
        obtain ⟨c0, hc0, hw⟩ := walkInner_ok_cons v x _ r rest2 hx
        simp only [slotAt, child_putSlot_same m p x hs, hc0]
        exact slotAt_walk_independent v (r :: rest2) qs c0 x hw hi2
    · simp only [slotAt, child_putSlot_other m p q x hs hpq]

theorem sameKind_walk (v m m1 : Value) (p : Part) (rest : List Part)
    (h : walk v m (p :: rest) = Except.ok m1) : sameKind m m1 = true := by
  rw [walk_ok_iff] at h
  obtain ⟨hs, x, _, rfl⟩ := h
  exact sameKind_putSlot m p x hs

theorem sameKind_walk_ancestor (v : Value) (last : Part) :
    ∀ (init qs : List Part) (m m1 : Value), walk v m (init ++ [last]) = Except.ok m1 →
      qs <+: init → ∃ a a1, slotAt m qs = some a ∧ slotAt m1 qs = some a1 ∧ sameKind a a1 = true
  | init, [], m, m1, h, _ => by
    refine ⟨m, m1, rfl, rfl, ?_⟩
    cases init with
    | nil => exact sameKind_walk v m m1 last [] h
    | cons p rest => exact sameKind_walk v m m1 p (rest ++ [last]) h
  | [], q :: qs, _, _, _, hp => by simp at hp
  | p :: rest, q :: qs, m, m1, h, hp => by
    obtain ⟨hpq, hp2⟩ := List.cons_prefix_cons.1 hp
    subst hpq
    rw [List.cons_append, walk_ok_iff] at h
    obtain ⟨hs, x, hx, rfl⟩ := h
    have hne : rest ++ [last] ≠ [] := by simp
    obtain ⟨r, rest2, hr⟩ := List.exists_cons_of_ne_nil hne
    rw [hr] at hx
    obtain ⟨c0, hc0, hw⟩ := walkInner_ok_cons v x _ r rest2 hx
    rw [← hr] at hw
    simp only [slotAt, child_putSlot_same m q x hs, hc0]
    exact sameKind_walk_ancestor v last rest qs c0 x hw hp2

theorem writable_concat (last : Part) :
    ∀ (init : List Part) (m c : Value), slotAt m init = some c → hasSlot c last = true →
      writable m (init ++ [last]) = true
  | [], m, c, h, hs => by
    simp only [slotAt, Option.some.injEq] at h
    subst h
    simp [writable, hs]
  | p :: rest, m, c, h, hs => by
    have hne : rest ++ [last] ≠ [] := by simp
    have hemp : (rest ++ [last]).isEmpty = false := by
      cases rest <;> rfl
    simp only [slotAt] at h
    cases hc : child m p with
    | none => simp [hc] at h
    | some c0 =>
      simp only [hc] at h
      have ih := writable_concat last rest c0 c h hs
      rw [List.cons_append]
      unfold writable
      rw [hemp]
      simp only [Bool.false_eq_true, if_false, hc]
      exact ih

theorem independent_symm (ps qs : List Part) (h : independent ps qs) : independent qs ps :=
  ⟨h.2, h.1⟩

theorem independent_tail (p : Part) (ps qs : List Part) (h : independent (p :: ps) (p :: qs)) :
    independent ps qs :=
  ⟨fun hp => h.1 (List.cons_prefix_cons.2 ⟨rfl, hp⟩),
   fun hp => h.2 (List.cons_prefix_cons.2 ⟨rfl, hp⟩)⟩

theorem writable_walk_independent (v : Value) :
    ∀ (ps qs : List Part) (m m1 : Value), walk v m ps = Except.ok m1 → independent ps qs →
      writable m1 qs = writable m qs
  | [], _, _, _, _, hi => absurd List.nil_prefix hi.1
  | _ :: _, [], _, _, _, hi => absurd List.nil_prefix hi.2
  | p :: rest, q :: qs, m, m1, h, hi => by
    rw [walk_ok_iff] at h
    obtain ⟨hs, x, hx, rfl⟩ := h
    by_cases hpq : p = q
    · subst hpq
      have hi2 := independent_tail p rest qs hi
      cases rest with
      | nil => exact absurd List.nil_prefix hi2.1
      | cons r rest2 =>
        cases qs with
        | nil => exact absurd List.nil_prefix hi2.2
        | cons r2 qs2 =>
          obtain ⟨c0, hc0, hw⟩ := walkInner_ok_cons v x _ r rest2 hx
          simp only [writable, List.isEmpty_cons, Bool.false_eq_true, if_false,
            child_putSlot_same m p x hs, hc0]
          exact writable_walk_independent v (r :: rest2) (r2 :: qs2) c0 x hw hi2
    · simp only [writable, hasSlot_putSlot, child_putSlot_other m p q x hs hpq]

theorem walk_comm (f g : Value) :
    ∀ (ps qs : List Part) (m m1 m2 m12 m21 : Value), independent ps qs →
      walk f m ps = Except.ok m1 → walk g m1 qs = Except.ok m12 →
      walk g m qs = Except.ok m2 → walk f m2 ps = Except.ok m21 → m12 = m21
  | [], _, _, _, _, _, _, hi, _, _, _, _ => absurd List.nil_prefix hi.1
  | _ :: _, [], _, _, _, _, _, hi, _, _, _, _ => absurd List.nil_prefix hi.2
  | p :: rest, q :: qs, m, m1, m2, m12, m21, hi, h1, h2, h3, h4 => by
    rw [walk_ok_iff] at h1 h2 h3 h4
    obtain ⟨hs1, x1, hx1, rfl⟩ := h1
    obtain ⟨hs3, y2, hy2, rfl⟩ := h3
    obtain ⟨_, y12, hy12, rfl⟩ := h2
    obtain ⟨_, x21, hx21, rfl⟩ := h4
    by_cases hpq : p = q
    · subst hpq
      have hi2 := independent_tail p rest qs hi
      cases rest with
      | nil => exact absurd List.nil_prefix hi2.1
      | cons r rest2 =>
        cases qs with
        | nil => exact absurd List.nil_prefix hi2.2
        | cons r2 qs2 =>
          rw [child_putSlot_same m p x1 hs1] at hy12
          rw [child_putSlot_same m p y2 hs1] at hx21
          obtain ⟨c0, hc0, hw1⟩ := walkInner_ok_cons f x1 _ r rest2 hx1
          obtain ⟨c0b, hc0b, hw3⟩ := walkInner_ok_cons g y2 _ r2 qs2 hy2
          obtain ⟨c1, hc1, hw2⟩ := walkInner_ok_cons g y12 _ r2 qs2 hy12
          obtain ⟨c2, hc2, hw4⟩ := walkInner_ok_cons f x21 _ r rest2 hx21
          have e0 : c0b = c0 := Option.some.inj (hc0b.symm.trans hc0)
          have e1 : x1 = c1 := Option.some.inj hc1
          have e2 : y2 = c2 := Option.some.inj hc2
          subst e0 e1 e2
          have ih := walk_comm f g (r :: rest2) (r2 :: qs2) c0b x1 y2 y12 x21 hi2 hw1 hw2 hw3 hw4
          rw [putSlot_putSlot_same, putSlot_putSlot_same, ih]
    · have hqp : q ≠ p := fun he => hpq he.symm
      rw [child_putSlot_other m p q x1 hs1 hpq, hy2] at hy12
      rw [child_putSlot_other m q p y2 hs3 hqp, hx1] at hx21
      have e1 : y2 = y12 := Except.ok.inj hy12
      have e2 : x1 = x21 := Except.ok.inj hx21
      subst e1 e2
      exact putSlot_comm m p q x1 y2 hs1 hs3 hpq

theorem sameKind_trans (a b c : Value) (h1 : sameKind a b = true) (h2 : sameKind b c = true) :
    sameKind a c = true := by
  cases a <;> cases b <;> simp [sameKind] at h1 <;> cases c <;> simp [sameKind] at h2 ⊢
  omega

theorem set_eq_returned (v m m1 : Value) (path : String)
    (h : walk v m (parsePath path) = Except.ok m1) : set v m path = SetResult.returned none m1 := by
  simp [set, h]

theorem set_eq_panicked (v m : Value) (path : String) (e : GoPanic)
    (h : walk v m (parsePath path) = Except.error e) : set v m path = SetResult.panicked e := by
  simp [set, h]

theorem set_returns_no_error (v m m1 : Value) (path : String) (err : String) :
    set v m path ≠ SetResult.returned (some err) m1 := by
  unfold set
  cases walk v m (parsePath path) with
  | ok m2 =>
    intro h
    have h2 := (SetResult.returned.inj h).1
    exact Option.noConfusion h2
  | error e =>
    intro h
    exact SetResult.noConfusion h

theorem parsePath_ne_nil (path : String) : parsePath path ≠ [] := by
  unfold parsePath
  have h : splitDot path.toList ≠ [] := by
    cases path.toList with
    | nil => simp [splitDot]
    | cons c cs =>
      unfold splitDot
      split
      · simp
      · split <;> simp
  simpa using h

theorem setPaths_singleton (file : File) (m : Value) (path : String) :
    setPaths file m [path] = walk (Value.upload file) m (parsePath path) := by
  simp only [setPaths, set]
  cases walk (Value.upload file) m (parsePath path) <;> rfl

theorem setUploads_pair (f1 f2 : File) (m m1 m12 : Value) (p q : String)
    (h1 : walk (Value.upload f1) m (parsePath p) = Except.ok m1)
    (h2 : walk (Value.upload f2) m1 (parsePath q) = Except.ok m12) :
    setUploads m [(f1, [p]), (f2, [q])] = Except.ok m12 := by
  simp only [setUploads, setPaths_singleton, h1, h2]

theorem sameKind_two_walks (f g : Value) (ps qs rs : List Part) (m m1 m12 : Value)
    (hi : independent ps qs) (h1 : walk f m ps = Except.ok m1)
    (h2 : walk g m1 qs = Except.ok m12) (hr : rs <+: ps.dropLast) :
    ∃ a a2, slotAt m rs = some a ∧ slotAt m12 rs = some a2 ∧ sameKind a a2 = true := by
  have hps : ps ≠ [] := fun h => hi.1 (h ▸ List.nil_prefix)
  have hqs : qs ≠ [] := fun h => hi.2 (h ▸ List.nil_prefix)
  have e1 : ps = ps.dropLast ++ [ps.getLast hps] := (List.dropLast_append_getLast hps).symm
  have e2 : qs = qs.dropLast ++ [qs.getLast hqs] := (List.dropLast_append_getLast hqs).symm
  have h1b := h1
  rw [e1] at h1b
  obtain ⟨a, a1, ha, ha1, hk⟩ :=
    sameKind_walk_ancestor f (ps.getLast hps) ps.dropLast rs m m1 h1b hr
  have hrps : rs <+: ps := hr.trans (List.dropLast_prefix ps)
  by_cases hrq : rs <+: qs.dropLast
  · have h2b := h2
    rw [e2] at h2b
    obtain ⟨b, b2, hb, hb2, hk2⟩ :=
      sameKind_walk_ancestor g (qs.getLast hqs) qs.dropLast rs m1 m12 h2b hrq
    rw [ha1] at hb
    have hab : a1 = b := Option.some.inj hb
    subst hab
    exact ⟨a, b2, ha, hb2, sameKind_trans a a1 b2 hk hk2⟩
  · have hind : independent rs qs := by
      constructor
      · intro hrqs
        obtain ⟨t, ht⟩ := hrqs
        apply hrq
        rcases List.eq_nil_or_concat t with ht0 | ⟨t2, x, ht2⟩
        · subst ht0
          rw [List.append_nil] at ht
          exact absurd (ht ▸ hrps) hi.2
        · subst ht2
          rw [List.concat_eq_append, ← List.append_assoc] at ht
          rw [← ht, List.dropLast_concat]
          exact List.prefix_append rs t2
      · intro hqr
        exact hi.2 (hqr.trans hrps)
    refine ⟨a, a1, ha, ?_, hk⟩
    rw [slotAt_walk_independent g qs rs m1 m12 h2 hind, ha1]

/-! ## Lemmas on failing walks -/

theorem walkInner_error_ne_nil (v : Value) (c : Option Value) (rest : List Part) (e : GoPanic)
    (h : walkInner v c rest = Except.error e) : rest ≠ [] := by
  intro hr
  subst hr
  simp only [walkInner, List.isEmpty_nil, if_true] at h
  exact Except.noConfusion h

theorem walk_error_iff (v m : Value) (p : Part) (rest : List Part) (e : GoPanic) :
    walk v m (p :: rest) = Except.error e ↔
      (hasSlot m p = false ∧ e = panicAt m p) ∨
      (hasSlot m p = true ∧ walkInner v (child m p) rest = Except.error e) := by
  rw [walk_cons_inner]
  by_cases hs : hasSlot m p = true
  · simp only [hs, if_true, Bool.true_eq_false, false_and, true_and, false_or]
    cases hw : walkInner v (child m p) rest with
    | ok c =>
      constructor
      · intro h
        exact Except.noConfusion h
      · intro h
        exact Except.noConfusion h
    | error e2 =>
      constructor
      · intro h
        rw [Except.error.inj h]
      · intro h
        rw [Except.error.inj h]
  · have hf : hasSlot m p = false := by simpa using hs
    simp only [hf, Bool.false_eq_true, if_false, true_and, false_and, or_false]
    constructor
    · intro h
      exact (Except.error.inj h).symm
    · intro h
      rw [h]

theorem walk_error_congr (v v2 : Value) :
    ∀ (ps : List Part) (m : Value) (e : GoPanic), walk v m ps = Except.error e →
      walk v2 m ps = Except.error e
  | [], m, e, h => by
    simp only [walk] at h
    exact Except.noConfusion h
  | p :: rest, m, e, h => by
    rw [walk_error_iff] at h ⊢
    rcases h with h | ⟨hs, hw⟩
    · exact Or.inl h
    · refine Or.inr ⟨hs, ?_⟩
      have hne := walkInner_error_ne_nil v _ rest e hw
      obtain ⟨r, rest2, hr⟩ := List.exists_cons_of_ne_nil hne
      subst hr
      simp only [walkInner, List.isEmpty_cons, Bool.false_eq_true, if_false] at hw ⊢
      exact walk_error_congr v v2 (r :: rest2) _ e hw

theorem walk_error_after_upload (file : File) (v v2 : Value) :
    ∀ (ps qs : List Part) (m m1 : Value) (e : GoPanic),
      walk (Value.upload file) m qs = Except.ok m1 → walk v m ps = Except.error e →
      ∃ e2, walk v2 m1 ps = Except.error e2
  | [], _, _, _, _, _, h => by
    simp only [walk] at h
    exact Except.noConfusion h
  | p :: rest, [], m, m1, e, hq, h => by
    simp only [walk] at hq
    have hm : m = m1 := Except.ok.inj hq
    subst hm
    exact ⟨e, walk_error_congr v v2 (p :: rest) m e h⟩
  | p :: rest, q :: qs, m, m1, e, hq, h => by
    rw [walk_ok_iff] at hq
    obtain ⟨hsq, x, hx, rfl⟩ := hq
    rw [walk_error_iff] at h
    rcases h with ⟨hs, _⟩ | ⟨hs, hw⟩
    · refine ⟨panicAt (putSlot m q x) p, ?_⟩
      rw [walk_error_iff]
      exact Or.inl ⟨by rw [hasSlot_putSlot, hs], rfl⟩
    · have hne := walkInner_error_ne_nil v _ rest e hw
      obtain ⟨r, rest2, hr⟩ := List.exists_cons_of_ne_nil hne
      subst hr
      simp only [walkInner, List.isEmpty_cons, Bool.false_eq_true, if_false] at hw
      by_cases hpq : q = p
      · subst hpq
        have hgoal : ∃ e2, walk v2 x (r :: rest2) = Except.error e2 := by
          cases qs with
          | nil =>
            simp only [walkInner, List.isEmpty_nil, if_true] at hx
            have hxe : Value.upload file = x := Except.ok.inj hx
            subst hxe
            exact ⟨GoPanic.typeAssertion,
              walk_eq_error_of_not_container v2 (Value.upload file) r rest2 rfl⟩
          | cons q2 qs2 =>
            obtain ⟨c0, hc0, hwq⟩ := walkInner_ok_cons (Value.upload file) x _ q2 qs2 hx
            rw [hc0] at hw
            simp only [Option.getD_some] at hw
            exact walk_error_after_upload file v v2 (r :: rest2) (q2 :: qs2) c0 x e hwq hw
        obtain ⟨e2, he2⟩ := hgoal
        refine ⟨e2, ?_⟩
        rw [walk_error_iff]
        refine Or.inr ⟨by rw [hasSlot_putSlot, hs], ?_⟩
        rw [child_putSlot_same m q x hsq]
        simp only [walkInner, List.isEmpty_cons, Bool.false_eq_true, if_false, Option.getD_some]
        exact he2
      · refine ⟨e, ?_⟩
        rw [walk_error_iff]
        refine Or.inr ⟨by rw [hasSlot_putSlot, hs], ?_⟩
        rw [child_putSlot_other m q p x hsq hpq]
        simp only [walkInner, List.isEmpty_cons, Bool.false_eq_true, if_false]
        exact walk_error_congr v v2 (r :: rest2) _ e hw

theorem walk_error_of_no_final_slot (v : Value) (last : Part) :
    ∀ (init : List Part) (m c : Value), slotAt m init = some c → hasSlot c last = false →
      walk v m (init ++ [last]) = Except.error (panicAt c last)
  | [], m, c, h, hs => by
    simp only [slotAt, Option.some.injEq] at h
    subst h
    rw [List.nil_append, walk_error_iff]
    exact Or.inl ⟨hs, rfl⟩
  | p :: rest, m, c, h, hs => by
    simp only [slotAt] at h
    cases hc : child m p with
    | none => simp [hc] at h
    | some c0 =>
      simp only [hc] at h
      have ih := walk_error_of_no_final_slot v last rest c0 c h hs
      rw [List.cons_append, walk_error_iff]
      refine Or.inr ⟨hasSlot_of_child m p c0 hc, ?_⟩
      have hemp : (rest ++ [last]).isEmpty = false := by
        cases rest <;> rfl
      simp only [walkInner, hemp, Bool.false_eq_true, if_false, hc, Option.getD_some]
      exact ih

theorem walk_error_of_targetsMissingIndex (v m : Value) (ps : List Part)
    (h : targetsMissingIndex m ps = true) : walk v m ps = Except.error GoPanic.indexOutOfRange := by
  unfold targetsMissingIndex at h
  cases hs : slotAt m ps.dropLast with
  | none => simp [hs] at h
  | some c =>
    cases hl : ps.getLast? with
    | none => simp [hs, hl] at h
    | some last =>
      have hne : ps ≠ [] := by
        intro hnil
        subst hnil
        simp at hl
      have hlast : ps.getLast hne = last := by
        rw [List.getLast?_eq_getLast _ hne] at hl
        exact Option.some.inj hl
      have e1 : ps = ps.dropLast ++ [last] := by
        rw [← hlast]
        exact (List.dropLast_append_getLast hne).symm
      cases c <;> cases last <;> simp [hs, hl] at h
      rename_i elems i
      have hslot : hasSlot (Value.arr elems) (Part.index i) = false := by
        simp only [hasSlot, decide_eq_false_iff_not, not_and, not_lt]
        intro h0
        omega
      have := walk_error_of_no_final_slot v (Part.index i) ps.dropLast m (Value.arr elems) hs hslot
      rw [← e1] at this
      exact this

theorem setPaths_keeps_error (file : File) (v : Value) (ps : List Part) :
    ∀ (paths : List String) (m m1 : Value) (e : GoPanic),
      setPaths file m paths = Except.ok m1 → walk v m ps = Except.error e →
      ∃ e2, walk v m1 ps = Except.error e2
  | [], m, m1, e, h, hw => by
    simp only [setPaths] at h
    have hm : m = m1 := Except.ok.inj h
    subst hm
    exact ⟨e, hw⟩
  | path :: rest, m, m1, e, h, hw => by
    simp only [setPaths, set] at h
    cases hp : walk (Value.upload file) m (parsePath path) with
    | error e2 =>
      simp only [hp] at h
      exact Except.noConfusion h
    | ok m2 =>
      simp only [hp] at h
      obtain ⟨e3, he3⟩ := walk_error_after_upload file v v ps (parsePath path) m m2 e hp hw
      exact setPaths_keeps_error file v ps rest m2 m1 e3 h he3

theorem setPaths_error_of_mem (file : File) (v : Value) (path : String) :
    ∀ (paths : List String) (m : Value) (e : GoPanic), path ∈ paths →
      walk v m (parsePath path) = Except.error e → ∃ e2, setPaths file m paths = Except.error e2
  | [], _, _, hmem, _ => by simp at hmem
  | p0 :: rest, m, e, hmem, hw => by
    simp only [setPaths, set]
    cases hp : walk (Value.upload file) m (parsePath p0) with
    | error e2 => exact ⟨e2, rfl⟩
    | ok m2 =>
      simp only []
      rcases List.mem_cons.1 hmem with heq | hin
      · subst heq
        rw [walk_error_congr v (Value.upload file) (parsePath path) m e hw] at hp
        exact Except.noConfusion hp
      · obtain ⟨e3, he3⟩ := walk_error_after_upload file v v (parsePath path) (parsePath p0) m m2 e hp hw
        exact setPaths_error_of_mem file v path rest m2 e3 hin he3

theorem setUploads_error_of_mem (v : Value) (file : File) (paths : List String) (path : String) :
    ∀ (uploads : List (File × List String)) (m : Value) (e : GoPanic),
      (file, paths) ∈ uploads → path ∈ paths → walk v m (parsePath path) = Except.error e →
      ∃ e2, setUploads m uploads = Except.error e2
  | [], _, _, hmem, _, _ => by simp at hmem
  | (f0, ps0) :: rest, m, e, hmem, hpath, hw => by
    simp only [setUploads]
    cases hp : setPaths f0 m ps0 with
    | error e2 => exact ⟨e2, rfl⟩
    | ok m2 =>
      simp only []
      rcases List.mem_cons.1 hmem with heq | hin
      · have h1 : file = f0 := (Prod.mk.inj heq).1
        have h2 : paths = ps0 := (Prod.mk.inj heq).2
        subst h1 h2
        obtain ⟨e2, he2⟩ := setPaths_error_of_mem file v path paths m e hpath hw
        rw [he2] at hp
        exact Except.noConfusion hp
      · obtain ⟨e3, he3⟩ := setPaths_keeps_error f0 v (parsePath path) ps0 m m2 e hp hw
        exact setUploads_error_of_mem v file paths path rest m2 e3 hin hpath he3

theorem openUploads_mem (form : MultipartForm) (key : String) (paths : List String) :
    ∀ (entries : List (String × List String)) (uploads : List (File × List String)),
      openUploads form entries = some uploads → (key, paths) ∈ entries →
      ∃ file, (file, paths) ∈ uploads
  | [], _, _, hmem => by simp at hmem
  | (k0, ps0) :: rest, uploads, h, hmem => by
    simp only [openUploads] at h
    cases hf : form.formFile k0 with
    | none => simp [hf] at h
    | some fs =>
      obtain ⟨filename, size⟩ := fs
      simp only [hf] at h
      cases hr : openUploads form rest with
      | none => simp [hr] at h
      | some us =>
        simp only [hr, Option.some.injEq] at h
        subst h
        rcases List.mem_cons.1 hmem with heq | hin
        · have h1 : key = k0 := (Prod.mk.inj heq).1
          have h2 : paths = ps0 := (Prod.mk.inj heq).2
          subst h1 h2
          exact ⟨_, List.mem_cons_self _ _⟩
        · obtain ⟨file, hfile⟩ := openUploads_mem form key paths rest us hr hin
          exact ⟨file, List.mem_cons_of_mem _ hfile⟩

theorem walk_error_of_meetsWrongShape (v : Value) :
    ∀ (ps : List Part) (m : Value), meetsWrongShape m ps = true →
      walk v m ps = Except.error GoPanic.typeAssertion
  | [], _, h => by simp [meetsWrongShape] at h
  | p :: rest, m, h => by
    cases m <;> cases p <;> simp only [meetsWrongShape] at h <;>
      try exact walk_eq_error_of_not_container v _ _ rest rfl
    · simp [walk]
    · rename_i elems i
      simp only [Bool.and_eq_true, decide_eq_true_eq, Bool.not_eq_true'] at h
      obtain ⟨⟨hin, hne⟩, hrec⟩ := h
      have ih := walk_error_of_meetsWrongShape v rest _ hrec
      simp only [walk, hin, and_self, if_true, hne, Bool.false_eq_true, if_false, ih]
    · rename_i fields k
      simp only [Bool.and_eq_true, Bool.not_eq_true'] at h
      obtain ⟨hne, hrec⟩ := h
      have ih := walk_error_of_meetsWrongShape v rest _ hrec
      simp only [walk, hne, Bool.false_eq_true, if_false, ih]
    · simp [walk]

/-! ## The parts of the code and the parts of the specification -/

theorem toPart_index_iff (seg : List Char) :
    (∃ i, toPart seg = Part.index i) ↔ seg.any Char.isDigit = true := by
  unfold toPart matchDigits
  by_cases h : seg.any Char.isDigit = true
  · simp only [h, if_true, iff_true]
    exact ⟨atoi seg, rfl⟩
  · simp only [h, Bool.false_eq_true, if_false, iff_false]
    rintro ⟨i, hi⟩
    exact Part.noConfusion hi

theorem specPart_index_iff (seg : List Char) :
    (∃ i, specPart seg = Part.index i) ↔ seg ≠ [] ∧ seg.all Char.isDigit = true := by
  unfold specPart
  cases seg with
  | nil => simp
  | cons c cs =>
    by_cases h : (c :: cs).all Char.isDigit = true
    · simp only [List.isEmpty_cons, Bool.not_false, Bool.true_and, h, if_true, ne_eq,
        reduceCtorEq, not_false_eq_true, and_self, iff_true]
      exact ⟨atoi (c :: cs), rfl⟩
    · simp only [List.isEmpty_cons, Bool.not_false, Bool.true_and, h, Bool.false_eq_true,
        if_false, ne_eq, reduceCtorEq, not_false_eq_true, and_false, iff_false]
      rintro ⟨i, hi⟩
      exact hi

theorem toPart_eq_specPart (seg : List Char)
    (h : (!seg.any Char.isDigit || seg.all Char.isDigit) = true) : toPart seg = specPart seg := by
  unfold toPart specPart matchDigits
  cases seg with
  | nil => rfl
  | cons c cs =>
    by_cases hany : (c :: cs).any Char.isDigit = true
    · have hall : (c :: cs).all Char.isDigit = true := by
        rw [hany] at h
        simpa using h
      simp only [hany, if_true, List.isEmpty_cons, Bool.not_false, Bool.true_and, hall]
    · have hnall : ¬ (c :: cs).all Char.isDigit = true := by
        intro hall
        apply hany
        simp only [List.all_cons, Bool.and_eq_true] at hall
        simp only [List.any_cons, Bool.or_eq_true]
        exact Or.inl hall.1
      simp only [hany, Bool.false_eq_true, if_false, List.isEmpty_cons, Bool.not_false,
        Bool.true_and, hnall]

theorem parsePath_eq_specPath (path : String) (h : unambiguous path = true) :
    parsePath path = specPath path := by
  unfold parsePath specPath
  unfold unambiguous at h
  rw [List.all_eq_true] at h
  exact List.map_congr_left (fun seg hseg => toPart_eq_specPart seg (h seg hseg))

theorem toPart_or_specPart_key (seg : List Char) :
    toPart seg = specPart seg ∨ ∃ i, toPart seg = Part.index i ∧ specPart seg = Part.key (String.mk seg) := by
  by_cases h : (!seg.any Char.isDigit || seg.all Char.isDigit) = true
  · exact Or.inl (toPart_eq_specPart seg h)
  · right
    simp only [Bool.or_eq_true, Bool.not_eq_true', not_or, Bool.not_eq_false,
      Bool.not_eq_true] at h
    refine ⟨atoi seg, ?_, ?_⟩
    · simp [toPart, matchDigits, h.1]
    · simp [specPart, h.2]

theorem targetsMissingIndex_cons (m : Value) (p q : Part) (rest : List Part) :
    targetsMissingIndex m (p :: q :: rest) =
      match child m p with
      | some c => targetsMissingIndex c (q :: rest)
      | none => false := by
  simp only [targetsMissingIndex, List.dropLast_cons₂, slotAt, List.getLast?_cons_cons]
  cases child m p <;> rfl

theorem walk_error_of_spec_targetsMissingIndex (v : Value) :
    ∀ (segs : List (List Char)) (m : Value),
      targetsMissingIndex m (segs.map specPart) = true →
      ∃ e, walk v m (segs.map toPart) = Except.error e
  | [], m, h => by simp [targetsMissingIndex] at h
  | [seg], m, h => by
    rcases toPart_or_specPart_key seg with heq | ⟨i, _, hk⟩
    · simp only [List.map_cons, List.map_nil, heq]
      exact ⟨_, walk_error_of_targetsMissingIndex v m [specPart seg] h⟩
    · simp only [List.map_cons, List.map_nil, hk, targetsMissingIndex, List.dropLast_single,
        slotAt, List.getLast?_singleton] at h
      cases m <;> simp at h
  | seg :: seg2 :: rest, m, h => by
    simp only [List.map_cons, targetsMissingIndex_cons] at h
    cases hc : child m (specPart seg) with
    | none => simp [hc] at h
    | some c =>
      simp only [hc] at h
      have ih := walk_error_of_spec_targetsMissingIndex v (seg2 :: rest) c h
      simp only [List.map_cons] at ih ⊢
      rcases toPart_or_specPart_key seg with heq | ⟨i, hi, hk⟩
      · obtain ⟨e, he⟩ := ih
        refine ⟨e, ?_⟩
        rw [walk_error_iff]
        rw [heq]
        refine Or.inr ⟨hasSlot_of_child m _ c hc, ?_⟩
        simp only [walkInner, List.isEmpty_cons, Bool.false_eq_true, if_false, hc,
          Option.getD_some]
        exact he
      · rw [hk] at hc
        rw [hi]
        refine ⟨panicAt m (Part.index i), ?_⟩
        rw [walk_error_iff]
        left
        refine ⟨?_, rfl⟩
        cases m <;> simp [child] at hc
        rfl

/-! ## Lemmas on the handler -/

theorem string_length_eq_zero (s : String) : s.length = 0 ↔ s = "" := by
  cases s with
  | mk l =>
    simp only [String.length, List.length_eq_zero]
    constructor
    · intro h
      subst h
      rfl
    · intro h
      exact congrArg String.data h

theorem ServeHTTP_post {ρ : Type} (self : Handler ρ) (ord : RangeOrder) (r : HttpRequest)
    (hm : r.Method = "POST") : ServeHTTP self ord r = servePost self ord r := by
  simp [ServeHTTP, hm]

theorem ServeHTTP_get {ρ : Type} (self : Handler ρ) (ord : RangeOrder) (r : HttpRequest)
    (hm : r.Method = "GET") : ServeHTTP self ord r = serveGet self r := by
  simp [ServeHTTP, hm]

theorem dispatch_not_container {ρ : Type} (self : Handler ρ) (ctx : Context) (v : Value)
    (h : isContainer v = false) : dispatch self ctx v = rejected badRequestEmpty := by
  cases v <;> simp [isContainer] at h <;> rfl

theorem setPaths_not_container (file : File) (v : Value) (h : isContainer v = false) :
    ∀ paths : List String,
      setPaths file v paths =
        if paths.isEmpty then Except.ok v else Except.error GoPanic.typeAssertion
  | [] => rfl
  | path :: rest => by
    obtain ⟨p, ps, hp⟩ := List.exists_cons_of_ne_nil (parsePath_ne_nil path)
    simp only [setPaths, set, hp, walk_eq_error_of_not_container (Value.upload file) v p ps h,
      List.isEmpty_cons, Bool.false_eq_true, if_false]

theorem setUploads_not_container (v : Value) (h : isContainer v = false) :
    ∀ uploads : List (File × List String),
      setUploads v uploads =
        if declaresPath uploads then Except.error GoPanic.typeAssertion else Except.ok v
  | [] => rfl
  | (file, paths) :: rest => by
    simp only [setUploads, setPaths_not_container file v h paths, declaresPath, List.any_cons]
    cases paths with
    | nil =>
      simp only [List.isEmpty_nil, if_true, Bool.not_true, Bool.false_or]
      exact setUploads_not_container v h rest
    | cons p ps => simp

theorem declaresPath_perm (us vs : List (File × List String)) (h : us.Perm vs) :
    declaresPath us = declaresPath vs := by
  unfold declaresPath
  rw [Bool.eq_iff_iff]
  simp only [List.any_eq_true]
  constructor
  · rintro ⟨u, hu, hp⟩
    exact ⟨u, h.mem_iff.1 hu, hp⟩
  · rintro ⟨u, hu, hp⟩
    exact ⟨u, h.mem_iff.2 hu, hp⟩

theorem batchRequest_of_isOperation (ctx : Context) (e : Value) (h : isOperation e = true) :
    batchRequest ctx e = Except.ok (operationOf ctx e) := by
  cases e <;> simp [isOperation] at h
  rename_i data
  obtain ⟨⟨h1, h2⟩, h3⟩ := h
  simp only [batchRequest, batchStringField, batchVariablesField, operationOf]
  cases hn : data "operationName" with
  | none =>
    cases hq : data "query" with
    | none =>
      cases hv : data "variables" with
      | none => rfl
      | some v =>
        cases v <;> simp [hv, absentOrMapping] at h3
        rfl
    | some q =>
      cases q <;> simp [hq, absentOrString] at h2
      cases hv : data "variables" with
      | none => rfl
      | some v =>
        cases v <;> simp [hv, absentOrMapping] at h3
        rfl
  | some n =>
    cases n <;> simp [hn, absentOrString] at h1
    cases hq : data "query" with
    | none =>
      cases hv : data "variables" with
      | none => rfl
      | some v =>
        cases v <;> simp [hv, absentOrMapping] at h3
        rfl
    | some q =>
      cases q <;> simp [hq, absentOrString] at h2
      cases hv : data "variables" with
      | none => rfl
      | some v =>
        cases v <;> simp [hv, absentOrMapping] at h3
        rfl

theorem batchLoop_of_isOperation {ρ : Type} (self : Handler ρ) (ctx : Context) :
    ∀ elems : List Value, (∀ e ∈ elems, isOperation e = true) →
      batchLoop self ctx elems =
        (elems.map (operationOf ctx),
          Except.ok (elems.map (fun e => self.Executor (operationOf ctx e))))
  | [], _ => rfl
  | e :: rest, h => by
    have he : isOperation e = true := h e (List.mem_cons_self _ _)
    have hrest : ∀ x ∈ rest, isOperation x = true := fun x hx => h x (List.mem_cons_of_mem _ hx)
    simp only [batchLoop, batchRequest_of_isOperation ctx e he,
      batchLoop_of_isOperation self ctx rest hrest, List.map_cons]

theorem batchStringField_eq_stringField (data : Fields) (name : String)
    (h : data name ≠ some Value.null) : batchStringField data name = stringField data name := by
  unfold batchStringField stringField
  cases hd : data name with
  | none => rfl
  | some v =>
    cases v <;> first | rfl | exact absurd hd h

theorem batchVariablesField_eq_variablesField (data : Fields)
    (h : data "variables" ≠ some Value.null) :
    batchVariablesField data = variablesField data := by
  unfold batchVariablesField variablesField
  cases hd : data "variables" with
  | none => rfl
  | some v =>
    cases v <;> first | rfl | exact absurd hd h

theorem batchRequest_eq_singleRequest (ctx : Context) (data : Fields)
    (h1 : data "operationName" ≠ some Value.null) (h2 : data "query" ≠ some Value.null)
    (h3 : data "variables" ≠ some Value.null) :
    batchRequest ctx (Value.obj data) = singleRequest ctx data := by
  simp only [batchRequest, singleRequest, batchStringField_eq_stringField data _ h1,
    batchStringField_eq_stringField data _ h2, batchVariablesField_eq_variablesField data h3]

theorem dispatch_batch_of_one_calls {ρ : Type} (self : Handler ρ) (ctx : Context) (data : Fields)
    (h1 : data "operationName" ≠ some Value.null) (h2 : data "query" ≠ some Value.null)
    (h3 : data "variables" ≠ some Value.null) :
    (dispatch self ctx (Value.arr [Value.obj data])).calls =
      (dispatch self ctx (Value.obj data)).calls := by
  simp only [dispatch, batchLoop, batchRequest_eq_singleRequest ctx data h1 h2 h3]
  cases singleRequest ctx data <;> rfl

theorem openUploads_of_partsPresent (form : MultipartForm) :
    ∀ entries : List (String × List String), partsPresent form entries = true →
      ∃ uploads, openUploads form entries = some uploads ∧
        declaresPath uploads = mapDeclaresPath entries
  | [], _ => ⟨[], rfl, rfl⟩
  | (key, paths) :: rest, h => by
    simp only [partsPresent, List.all_cons, Bool.and_eq_true] at h
    obtain ⟨hkey, hrest⟩ := h
    obtain ⟨uploads, hopen, hdecl⟩ := openUploads_of_partsPresent form rest hrest
    cases hf : form.formFile key with
    | none => simp [hf] at hkey
    | some fs =>
      obtain ⟨filename, size⟩ := fs
      refine ⟨({ File := key, Filename := filename, Size := size }, paths) :: uploads, ?_, ?_⟩
      · simp only [openUploads, hf, hopen]
      · simp only [declaresPath, mapDeclaresPath, List.any_cons] at hdecl ⊢
        rw [hdecl]

theorem openUploads_of_part_missing (form : MultipartForm) :
    ∀ entries : List (String × List String), partsPresent form entries = false →
      openUploads form entries = none
  | [], h => by simp [partsPresent] at h
  | (key, paths) :: rest, h => by
    simp only [openUploads]
    cases hf : form.formFile key with
    | none => rfl
    | some fs =>
      obtain ⟨filename, size⟩ := fs
      have hrest : partsPresent form rest = false := by
        simp only [partsPresent, List.all_cons, hf, Option.isSome_some, Bool.true_and] at h
        exact h
      simp only [openUploads_of_part_missing form rest hrest]

/-! ## The order of visit of the uploads -/

theorem setEach_append :
    ∀ (l1 l2 : List (File × String)) (m : Value),
      setEach m (l1 ++ l2) =
        match setEach m l1 with
        | Except.ok m1 => setEach m1 l2
        | Except.error e => Except.error e
  | [], _, _ => rfl
  | (file, path) :: rest, l2, m => by
    simp only [List.cons_append, setEach]
    cases walk (Value.upload file) m (parsePath path) with
    | ok m1 => exact setEach_append rest l2 m1
    | error e => rfl

theorem setPaths_eq_setEach (file : File) :
    ∀ (paths : List String) (m : Value),
      setPaths file m paths = setEach m (paths.map (fun path => (file, path)))
  | [], _ => rfl
  | path :: rest, m => by
    simp only [setPaths, set, List.map_cons, setEach]
    cases walk (Value.upload file) m (parsePath path) with
    | ok m1 => exact setPaths_eq_setEach file rest m1
    | error e => rfl

theorem setUploads_eq_setEach :
    ∀ (uploads : List (File × List String)) (m : Value),
      setUploads m uploads = setEach m (uploadCalls uploads)
  | [], _ => rfl
  | (file, paths) :: rest, m => by
    simp only [setUploads, uploadCalls, List.flatMap_cons, setEach_append,
      setPaths_eq_setEach file paths m]
    cases setEach m (paths.map (fun path => (file, path))) with
    | ok m1 => exact setUploads_eq_setEach rest m1
    | error e => rfl

theorem setEach_perm (l1 l2 : List (File × String)) (hperm : l1.Perm l2) :
    ∀ m : Value, l1.Pairwise callsIndependent →
      (∀ c ∈ l1, writable m (parsePath c.2) = true) → setEach m l1 = setEach m l2 := by
  induction hperm with
  | nil => intro m _ _; rfl
  | cons x hp ih =>
    rename_i t1 t2
    intro m hpair hw
    obtain ⟨file, path⟩ := x
    obtain ⟨m1, hm1⟩ := walk_ok_of_writable (Value.upload file) (parsePath path) m
      (hw (file, path) (List.mem_cons_self _ _))
    simp only [setEach, hm1]
    rw [List.pairwise_cons] at hpair
    apply ih m1 hpair.2
    intro c hc
    rw [writable_walk_independent (Value.upload file) (parsePath path) (parsePath c.2) m m1 hm1
      (hpair.1 c hc)]
    exact hw c (List.mem_cons_of_mem _ hc)
  | swap x y t =>
    intro m hpair hw
    obtain ⟨fx, px⟩ := x
    obtain ⟨fy, py⟩ := y
    rw [List.pairwise_cons] at hpair
    have hyx : independent (parsePath py) (parsePath px) := hpair.1 (fx, px) (List.mem_cons_self _ _)
    have hwy : writable m (parsePath py) = true := hw (fy, py) (List.mem_cons_self _ _)
    have hwx : writable m (parsePath px) = true :=
      hw (fx, px) (List.mem_cons_of_mem _ (List.mem_cons_self _ _))
    obtain ⟨my, hmy⟩ := walk_ok_of_writable (Value.upload fy) (parsePath py) m hwy
    obtain ⟨mx, hmx⟩ := walk_ok_of_writable (Value.upload fx) (parsePath px) m hwx
    have hwx2 : writable my (parsePath px) = true := by
      rw [writable_walk_independent (Value.upload fy) (parsePath py) (parsePath px) m my hmy hyx]
      exact hwx
    have hwy2 : writable mx (parsePath py) = true := by
      rw [writable_walk_independent (Value.upload fx) (parsePath px) (parsePath py) m mx hmx
        (independent_symm _ _ hyx)]
      exact hwy
    obtain ⟨myx, hmyx⟩ := walk_ok_of_writable (Value.upload fx) (parsePath px) my hwx2
    obtain ⟨mxy, hmxy⟩ := walk_ok_of_writable (Value.upload fy) (parsePath py) mx hwy2
    have heq : myx = mxy :=
      walk_comm (Value.upload fy) (Value.upload fx) (parsePath py) (parsePath px) m my mx myx mxy
        hyx hmy hmyx hmx hmxy
    simp only [setEach, hmy, hmyx, hmx, hmxy, heq]
  | trans h1 _ ih1 ih2 =>
    rename_i t1 t2 t3
    intro m hpair hw
    rw [ih1 m hpair hw]
    apply ih2 m
    · exact h1.pairwise hpair (fun hab => independent_symm _ _ hab)
    · intro c hc
      exact hw c (h1.mem_iff.2 hc)

theorem uploadCalls_perm (us vs : List (File × List String)) (h : us.Perm vs) :
    (uploadCalls us).Perm (uploadCalls vs) :=
  List.Perm.flatMap_right _ h

theorem setUploads_perm (m : Value) (us vs : List (File × List String)) (h : us.Perm vs)
    (hpair : (uploadCalls us).Pairwise callsIndependent)
    (hw : ∀ c ∈ uploadCalls us, writable m (parsePath c.2) = true) :
    setUploads m us = setUploads m vs := by
  rw [setUploads_eq_setEach, setUploads_eq_setEach]
  exact setEach_perm (uploadCalls us) (uploadCalls vs) (uploadCalls_perm us vs h) m hpair hw

/-- The result of the handler does not depend on the order in which the
uploads are visited, when the declared paths are pairwise independent and can
all be written in the decoded operations. -/
theorem ServeHTTP_visit_order_irrelevant {ρ : Type} (self : Handler ρ) (ord1 ord2 : RangeOrder)
    (r : HttpRequest)
    (h : ∀ form uploadsMap uploads operations,
      r.multipartForm self.MaxBodySize = some form → form.uploadsMap = some uploadsMap →
      openUploads form uploadsMap.entries = some uploads → form.operations = some operations →
      (uploadCalls uploads).Pairwise callsIndependent ∧
        ∀ c ∈ uploadCalls uploads, writable operations (parsePath c.2) = true) :
    ServeHTTP self ord1 r = ServeHTTP self ord2 r := by
  have hmulti : multipartOperations self ord1 r = multipartOperations self ord2 r := by
    cases hform : r.multipartForm self.MaxBodySize with
    | none => simp only [multipartOperations, hform]
    | some form =>
      cases hmap : form.uploadsMap with
      | none => simp only [multipartOperations, hform, hmap]
      | some uploadsMap =>
        cases hopen : openUploads form uploadsMap.entries with
        | none => simp only [multipartOperations, hform, hmap, hopen]
        | some uploads =>
          cases hops : form.operations with
          | none => simp only [multipartOperations, hform, hmap, hopen, hops]
          | some operations =>
            obtain ⟨hpair, hw⟩ := h form uploadsMap uploads operations hform hmap hopen hops
            have hp1 : uploads.Perm (ord1.visit uploads) := (ord1.visit_perm uploads).symm
            have hp2 : uploads.Perm (ord2.visit uploads) := (ord2.visit_perm uploads).symm
            simp only [multipartOperations, hform, hmap, hopen, hops]
            rw [← setUploads_perm operations uploads (ord1.visit uploads) hp1 hpair hw,
              ← setUploads_perm operations uploads (ord2.visit uploads) hp2 hpair hw]
  simp only [ServeHTTP, servePost, postOperations, hmulti]

/-! ## The claims on `set` -/

/-- C1, as stated, fails: in `{"variables": {"files": []}}` both non-final
segments of the path `variables.files.0` resolve to existing containers, the
last one to the empty sequence, and `set` panics instead of storing the
value. -/
theorem set_missing_final_index_panics :
    slotAt opsEmptyList [Part.key "variables"] =
        some (Value.obj (fieldsOf [("files", Value.arr [])])) ∧
      slotAt opsEmptyList [Part.key "variables", Part.key "files"] = some (Value.arr []) ∧
      parsePath "variables.files.0" =
        [Part.key "variables", Part.key "files"] ++ [Part.index 0] ∧
      set (Value.upload fileA) opsEmptyList "variables.files.0" =
        SetResult.panicked GoPanic.indexOutOfRange := by
  refine ⟨rfl, rfl, by decide, rfl⟩

/-- C1, amended: for a path whose segments are runs of digits or free of
digits, whose non-final parts `init` lead from `c` to an existing container
`m`, and whose final part `last` names a slot that `m` has (any key of a
mapping, an index inside a sequence), `set v c path` returns nil; afterwards
the slot of the path holds `v`, every slot on a path independent of it is as
before (the same value, or absent as before), and every container above the
slot is a container of the same kind and, for a sequence, of the same
length. -/
theorem set_overwrites_exactly_one_slot (v c m : Value) (path : String) (init : List Part)
    (last : Part) (_hclean : unambiguous path = true) (hparts : parsePath path = init ++ [last])
    (hres : slotAt c init = some m) (hslot : hasSlot m last = true) :
    ∃ c1, set v c path = SetResult.returned none c1 ∧
      slotAt c1 (parsePath path) = some v ∧
      (∀ qs, independent qs (parsePath path) → slotAt c1 qs = slotAt c qs) ∧
      (∀ qs, qs <+: init →
        ∃ a a1, slotAt c qs = some a ∧ slotAt c1 qs = some a1 ∧ sameKind a a1 = true) := by
  have hw : writable c (parsePath path) = true := by
    rw [hparts]
    exact writable_concat last init c m hres hslot
  obtain ⟨c1, hc1⟩ := walk_ok_of_writable v (parsePath path) c hw
  refine ⟨c1, set_eq_returned v c c1 path hc1, ?_, ?_, ?_⟩
  · exact slotAt_walk_self v (parsePath path) c c1 (parsePath_ne_nil path) hc1
  · intro qs hq
    exact slotAt_walk_independent v (parsePath path) qs c c1 hc1 hq
  · intro qs hq
    rw [hparts] at hc1
    exact sameKind_walk_ancestor v last init qs c c1 hc1 hq

/-- Witness of C1 amended: the upload of scenario C at `variables.files.1`. -/
theorem set_overwrites_exactly_one_slot_witness :
    ∃ c1, set (Value.upload fileB) opsFileList "variables.files.1" = SetResult.returned none c1 ∧
      slotAt c1 (parsePath "variables.files.1") = some (Value.upload fileB) ∧
      (∀ qs, independent qs (parsePath "variables.files.1") →
        slotAt c1 qs = slotAt opsFileList qs) ∧
      (∀ qs, qs <+: [Part.key "variables", Part.key "files"] →
        ∃ a a1, slotAt opsFileList qs = some a ∧ slotAt c1 qs = some a1 ∧
          sameKind a a1 = true) :=
  set_overwrites_exactly_one_slot (Value.upload fileB) opsFileList
    (Value.arr [Value.null, Value.null]) "variables.files.1"
    [Part.key "variables", Part.key "files"] (Part.index 1) (by decide) (by decide) rfl rfl

/-- C2, the code at the failing input: the segment `file1` holds a digit, so
`set` makes it the index 0 (the error of `Atoi` is dropped) where the
specification makes it the key `file1`, and `set` panics on the mapping
`{"file1": null}` whose key `file1` it was to write; in the same way `-1`
becomes the index -1 and `1a` the index 0, both keys for the specification,
while the empty segment is a key for both. -/
theorem set_digit_in_field_name_is_index :
    parsePath "variables.file1" = [Part.key "variables", Part.index 0] ∧
      specPath "variables.file1" = [Part.key "variables", Part.key "file1"] ∧
      writable opsFile1 (specPath "variables.file1") = true ∧
      set (Value.upload fileA) opsFile1 "variables.file1" =
        SetResult.panicked GoPanic.typeAssertion ∧
      toPart "-1".toList = Part.index (-1) ∧ specPart "-1".toList = Part.key "-1" ∧
      toPart "1a".toList = Part.index 0 ∧ specPart "1a".toList = Part.key "1a" ∧
      toPart "".toList = Part.key "" ∧ specPart "".toList = Part.key "" := by
  refine ⟨by decide, by decide, by decide, rfl, by decide, by decide, by decide, by decide,
    by decide, by decide⟩

/-- C3, as stated, fails: in `{"variables": null}` the segment `file` of the
path `variables.file` is a key applied to nil, which is no mapping, and `set`
does not return an error to its caller: it panics. -/
theorem set_wrong_shape_panics :
    meetsWrongShape opsNullVariables (parsePath "variables.file") = true ∧
      set (Value.upload fileA) opsNullVariables "variables.file" =
        SetResult.panicked GoPanic.typeAssertion ∧
      ¬ ∃ err m1, set (Value.upload fileA) opsNullVariables "variables.file" =
        SetResult.returned (some err) m1 := by
  refine ⟨by decide, rfl, ?_⟩
  rintro ⟨err, m1, h⟩
  have h2 : set (Value.upload fileA) opsNullVariables "variables.file" =
      SetResult.panicked GoPanic.typeAssertion := rfl
  rw [h2] at h
  exact SetResult.noConfusion h

/-- C3, amended: for every root and every path, with segments that are runs
of digits or free of digits, in which an intermediate or final part meets a
value of the wrong shape, `set` neither succeeds nor returns an error: it
panics on the failed type assertion. -/
theorem set_panics_on_wrong_shape (v root : Value) (path : String)
    (_hclean : unambiguous path = true)
    (h : meetsWrongShape root (parsePath path) = true) :
    set v root path = SetResult.panicked GoPanic.typeAssertion :=
  set_eq_panicked v root path GoPanic.typeAssertion
    (walk_error_of_meetsWrongShape v (parsePath path) root h)

/-- Witness of C3 amended: the path `variables.file` in `{"variables": null}`. -/
theorem set_panics_on_wrong_shape_witness :
    set (Value.upload fileA) opsNullVariables "variables.file" =
      SetResult.panicked GoPanic.typeAssertion :=
  set_panics_on_wrong_shape (Value.upload fileA) opsNullVariables "variables.file"
    (by decide) (by decide)

theorem set_commute_on_parts (f g c : Value) (p q : String)
    (hind : independent (parsePath p) (parsePath q))
    (hp : writable c (parsePath p) = true) (hq : writable c (parsePath q) = true) :
    ∃ cp cq cpq,
      set f c p = SetResult.returned none cp ∧ set g cp q = SetResult.returned none cpq ∧
      set g c q = SetResult.returned none cq ∧ set f cq p = SetResult.returned none cpq ∧
      slotAt cpq (parsePath p) = some f ∧ slotAt cpq (parsePath q) = some g ∧
      (∀ rs, independent rs (parsePath p) → independent rs (parsePath q) →
        slotAt cpq rs = slotAt c rs) ∧
      (∀ rs, rs <+: (parsePath p).dropLast ∨ rs <+: (parsePath q).dropLast →
        ∃ a a2, slotAt c rs = some a ∧ slotAt cpq rs = some a2 ∧ sameKind a a2 = true) ∧
      (∀ file1 file2 : File, f = Value.upload file1 → g = Value.upload file2 →
        setUploads c [(file1, [p]), (file2, [q])] = Except.ok cpq ∧
        setUploads c [(file2, [q]), (file1, [p])] = Except.ok cpq) := by
  obtain ⟨cp, hcp⟩ := walk_ok_of_writable f (parsePath p) c hp
  obtain ⟨cq, hcq⟩ := walk_ok_of_writable g (parsePath q) c hq
  have hq2 : writable cp (parsePath q) = true := by
    rw [writable_walk_independent f (parsePath p) (parsePath q) c cp hcp hind]
    exact hq
  have hp2 : writable cq (parsePath p) = true := by
    rw [writable_walk_independent g (parsePath q) (parsePath p) c cq hcq
      (independent_symm _ _ hind)]
    exact hp
  obtain ⟨cpq, hcpq⟩ := walk_ok_of_writable g (parsePath q) cp hq2
  obtain ⟨cqp, hcqp⟩ := walk_ok_of_writable f (parsePath p) cq hp2
  have heq : cpq = cqp :=
    walk_comm f g (parsePath p) (parsePath q) c cp cq cpq cqp hind hcp hcpq hcq hcqp
  subst heq
  refine ⟨cp, cq, cpq, set_eq_returned f c cp p hcp, set_eq_returned g cp cpq q hcpq,
    set_eq_returned g c cq q hcq, set_eq_returned f cq cpq p hcqp, ?_, ?_, ?_, ?_, ?_⟩
  · exact slotAt_walk_self f (parsePath p) cq cpq (parsePath_ne_nil p) hcqp
  · exact slotAt_walk_self g (parsePath q) cp cpq (parsePath_ne_nil q) hcpq
  · intro rs hrp hrq
    rw [slotAt_walk_independent g (parsePath q) rs cp cpq hcpq hrq,
      slotAt_walk_independent f (parsePath p) rs c cp hcp hrp]
  · intro rs hrs
    rcases hrs with hr | hr
    · exact sameKind_two_walks f g (parsePath p) (parsePath q) rs c cp cpq hind hcp hcpq hr
    · exact sameKind_two_walks g f (parsePath q) (parsePath p) rs c cq cpq
        (independent_symm _ _ hind) hcq hcqp hr
  · intro file1 file2 hf hg
    subst hf hg
    exact ⟨setUploads_pair file1 file2 c cp cpq p q hcp hcpq,
      setUploads_pair file2 file1 c cq cpq q p hcq hcqp⟩

/-- C6, as stated, fails.  In `{"variables": {"file1": null, "file2": null}}`
the paths `variables.file1` and `variables.file2` name two keys of one
mapping: neither is an initial segment of the other and both can be written,
yet `set` reads both last segments as the index 0 and panics on the mapping
for either of them.  In `{"variables": {"files": [null, null]}}` the paths
`variables.files.0` and `variables.files.00` have different segments, neither
list of segments is an initial segment of the other and both can be written,
yet both end in the index 0: the handler's loop leaves `b.txt` in that slot
in one order of visit and `a.txt` in the other. -/
theorem set_paths_interfere :
    independent (specPath "variables.file1") (specPath "variables.file2") ∧
      writable opsTwoFiles (specPath "variables.file1") = true ∧
      writable opsTwoFiles (specPath "variables.file2") = true ∧
      set (Value.upload fileA) opsTwoFiles "variables.file1" =
        SetResult.panicked GoPanic.typeAssertion ∧
      set (Value.upload fileB) opsTwoFiles "variables.file2" =
        SetResult.panicked GoPanic.typeAssertion ∧
      ¬ splitDot "variables.files.0".toList <+: splitDot "variables.files.00".toList ∧
      ¬ splitDot "variables.files.00".toList <+: splitDot "variables.files.0".toList ∧
      writable opsFileList (parsePath "variables.files.0") = true ∧
      writable opsFileList (parsePath "variables.files.00") = true ∧
      parsePath "variables.files.00" = parsePath "variables.files.0" ∧
      (match setUploads opsFileList
          [(fileA, ["variables.files.0"]), (fileB, ["variables.files.00"])] with
        | Except.ok t => slotAt t (parsePath "variables.files.0")
        | Except.error _ => none) = some (Value.upload fileB) ∧
      (match setUploads opsFileList
          [(fileB, ["variables.files.00"]), (fileA, ["variables.files.0"])] with
        | Except.ok t => slotAt t (parsePath "variables.files.0")
        | Except.error _ => none) = some (Value.upload fileA) := by
  refine ⟨by decide, by decide, by decide, rfl, rfl, by decide, by decide, by decide,
    by decide, by decide, rfl, rfl⟩

/-- C6, amended: for two paths whose segments are runs of digits or free of
digits, whose parts (a run of digits counting as the integer it denotes) are
independent, neither list of parts being an initial segment of the other, and
that can both be written in `c` (every non-final part leads to an existing
container and the last container has the final slot), the two calls of `set`
succeed in either order and give the same tree; in it the slot of `p` holds
`f` and the slot of `q` holds `g`, every slot on a path independent of both is
as in `c`, every container above either slot is a container of the same kind
and length as before, and the loop of the handler over the two uploads gives
the same operations in both orders of visit. -/
theorem set_independent_paths_commute (f g c : Value) (p q : String)
    (hpclean : unambiguous p = true) (hqclean : unambiguous q = true)
    (hind : independent (specPath p) (specPath q))
    (hp : writable c (specPath p) = true) (hq : writable c (specPath q) = true) :
    ∃ cp cq cpq,
      set f c p = SetResult.returned none cp ∧ set g cp q = SetResult.returned none cpq ∧
      set g c q = SetResult.returned none cq ∧ set f cq p = SetResult.returned none cpq ∧
      slotAt cpq (specPath p) = some f ∧ slotAt cpq (specPath q) = some g ∧
      (∀ rs, independent rs (specPath p) → independent rs (specPath q) →
        slotAt cpq rs = slotAt c rs) ∧
      (∀ rs, rs <+: (specPath p).dropLast ∨ rs <+: (specPath q).dropLast →
        ∃ a a2, slotAt c rs = some a ∧ slotAt cpq rs = some a2 ∧ sameKind a a2 = true) ∧
      (∀ file1 file2 : File, f = Value.upload file1 → g = Value.upload file2 →
        setUploads c [(file1, [p]), (file2, [q])] = Except.ok cpq ∧
        setUploads c [(file2, [q]), (file1, [p])] = Except.ok cpq) := by
  have ep := parsePath_eq_specPath p hpclean
  have eq := parsePath_eq_specPath q hqclean
  rw [← ep] at hp
  rw [← eq] at hq
  rw [← ep, ← eq] at hind
  rw [← ep, ← eq]
  exact set_commute_on_parts f g c p q hind hp hq

/-- Witness of C6 amended: the two uploads of scenario C, at
`variables.files.0` and `variables.files.1` of
`{"variables": {"files": [null, null]}}`. -/
theorem set_independent_paths_commute_witness :
    ∃ cp cq cpq,
      set (Value.upload fileA) opsFileList "variables.files.0" = SetResult.returned none cp ∧
      set (Value.upload fileB) cp "variables.files.1" = SetResult.returned none cpq ∧
      set (Value.upload fileB) opsFileList "variables.files.1" = SetResult.returned none cq ∧
      set (Value.upload fileA) cq "variables.files.0" = SetResult.returned none cpq ∧
      slotAt cpq [Part.key "variables", Part.key "files", Part.index 0] =
        some (Value.upload fileA) ∧
      slotAt cpq [Part.key "variables", Part.key "files", Part.index 1] =
        some (Value.upload fileB) ∧
      (∀ rs, independent rs [Part.key "variables", Part.key "files", Part.index 0] →
        independent rs [Part.key "variables", Part.key "files", Part.index 1] →
        slotAt cpq rs = slotAt opsFileList rs) ∧
      (∀ rs, rs <+: [Part.key "variables", Part.key "files"] ∨
          rs <+: [Part.key "variables", Part.key "files"] →
        ∃ a a2, slotAt opsFileList rs = some a ∧ slotAt cpq rs = some a2 ∧
          sameKind a a2 = true) ∧
      (∀ file1 file2 : File, Value.upload fileA = Value.upload file1 →
        Value.upload fileB = Value.upload file2 →
        setUploads opsFileList [(file1, ["variables.files.0"]), (file2, ["variables.files.1"])] =
          Except.ok cpq ∧
        setUploads opsFileList [(file2, ["variables.files.1"]), (file1, ["variables.files.0"])] =
          Except.ok cpq) :=
  set_independent_paths_commute (Value.upload fileA) (Value.upload fileB) opsFileList
    "variables.files.0" "variables.files.1" (by decide) (by decide) (by decide) (by decide)
    (by decide)

/-! ## The claims on the handler -/

/-- C7, as stated, fails: a PUT request ends with the status 200, which is no
client error, and an empty body; the Executor is not invoked. -/
theorem put_request_answers_200 :
    putRequest.Method = "PUT" ∧
      ServeHTTP echoHandler visitInOrder putRequest =
        { calls := [],
          outcome := Outcome.responded
            { status := 200, contentType := "application/json; charset=utf-8",
              body := Body.empty } } :=
  ⟨rfl, rfl⟩

/-- C7, amended: for every request whose method is neither GET nor POST the
handler never invokes the Executor and writes neither a status nor a body:
the response is the default 200 with an empty body. -/
theorem other_method_writes_nothing {ρ : Type} (self : Handler ρ) (ord : RangeOrder)
    (r : HttpRequest) (hget : r.Method ≠ "GET") (hpost : r.Method ≠ "POST") :
    ServeHTTP self ord r =
      { calls := [],
        outcome := Outcome.responded
          { status := 200, contentType := "application/json; charset=utf-8",
            body := Body.empty } } := by
  simp [ServeHTTP, hget, hpost]

/-- Witness of C7 amended: the PUT request. -/
theorem other_method_writes_nothing_witness :
    ServeHTTP echoHandler visitInOrder putRequest =
      { calls := [],
        outcome := Outcome.responded
          { status := 200, contentType := "application/json; charset=utf-8",
            body := Body.empty } } :=
  other_method_writes_nothing echoHandler visitInOrder putRequest (by decide) (by decide)

/-- C4: for every multipart POST request whose uploads map declares, under
some key, a path that leads to a sequence of the decoded operations and ends
in an index the sequence does not have (the segments read as `set` reads
them, or as the specification classifies them), the handler panics, whatever
the order in which the uploads are visited and however many of them were
stored before: the Executor is never invoked and no response is written. -/
theorem multipart_missing_index_aborts {ρ : Type} (self : Handler ρ) (ord : RangeOrder)
    (r : HttpRequest) (form : MultipartForm) (uploadsMap : UploadsMap) (operations : Value)
    (key : String) (paths : List String) (path : String)
    (hm : r.Method = "POST")
    (hct : beforeSemicolon (headerGet r.Header "Content-Type") = "multipart/form-data")
    (hform : r.multipartForm self.MaxBodySize = some form)
    (hmap : form.uploadsMap = some uploadsMap)
    (hops : form.operations = some operations)
    (hkey : (key, paths) ∈ uploadsMap.entries) (hpath : path ∈ paths)
    (hbad : targetsMissingIndex operations (parsePath path) = true ∨
      targetsMissingIndex operations (specPath path) = true) :
    ∃ p, ServeHTTP self ord r = aborted p := by
  rw [ServeHTTP_post self ord r hm]
  have hpost : postOperations self ord r = multipartOperations self ord r := by
    simp [postOperations, hct]
  have hmulti : ∃ p, multipartOperations self ord r = Except.error p := by
    simp only [multipartOperations, hform, hmap, hops]
    cases hu : openUploads form uploadsMap.entries with
    | none => exact ⟨GoPanic.error, rfl⟩
    | some uploads =>
      obtain ⟨file, hfile⟩ := openUploads_mem form key paths uploadsMap.entries uploads hu hkey
      have hvisit : (file, paths) ∈ ord.visit uploads := (ord.visit_perm uploads).mem_iff.2 hfile
      have hwalk : ∃ e, walk (Value.upload file) operations (parsePath path) = Except.error e := by
        rcases hbad with hcode | hspec
        · exact ⟨_, walk_error_of_targetsMissingIndex (Value.upload file) operations
            (parsePath path) hcode⟩
        · exact walk_error_of_spec_targetsMissingIndex (Value.upload file)
            (splitDot path.toList) operations hspec
      obtain ⟨e, he⟩ := hwalk
      exact setUploads_error_of_mem (Value.upload file) file paths path (ord.visit uploads)
        operations e hvisit hpath he
  obtain ⟨p, hp⟩ := hmulti
  exact ⟨p, by simp [servePost, hpost, hp, aborted]⟩

/-- Witness of C4: the uploads map `{"0": ["variables.files.0"], "1":
["variables.files.5"]}` on `{"variables": {"files": [null, null]}}`; the first
file is stored before the second path fails. -/
theorem multipart_missing_index_aborts_witness :
    ∃ p, ServeHTTP echoHandler visitInOrder (postMultipart (formWith mapMissingIndex opsFileList)) =
      aborted p :=
  multipart_missing_index_aborts echoHandler visitInOrder
    (postMultipart (formWith mapMissingIndex opsFileList)) (formWith mapMissingIndex opsFileList)
    mapMissingIndex opsFileList "1" ["variables.files.5"] "variables.files.5"
    rfl (by decide) rfl rfl rfl (by decide) (by decide) (Or.inl (by decide))

/-- C5, as stated, fails: the batch `[{"query": 5}]` is a sequence of one
mapping, and the handler panics on the type assertion of `query` without
invoking the Executor and without a response. -/
theorem batch_with_number_query_panics :
    postOperations echoHandler visitInOrder (postJson (Value.arr [Value.obj opNumberQuery])) =
        Except.ok (Value.arr [Value.obj opNumberQuery]) ∧
      ServeHTTP echoHandler visitInOrder (postJson (Value.arr [Value.obj opNumberQuery])) =
        aborted GoPanic.typeAssertion :=
  ⟨rfl, rfl⟩

/-- C5, amended: for every POST request whose decoded and injected operations
value is a sequence of n mappings in which `operationName` and `query`, where
present, hold strings and `variables`, where present, holds a mapping, the
Executor is invoked exactly n times, the i-th time with the Operation built
from the i-th element, and the response has the status 200 and carries the
sequence of the n results in the same order. -/
theorem post_batch_dispatches_in_order {ρ : Type} (self : Handler ρ) (ord : RangeOrder)
    (r : HttpRequest) (elems : List Value) (hm : r.Method = "POST")
    (hops : postOperations self ord r = Except.ok (Value.arr elems))
    (hwf : ∀ e ∈ elems, isOperation e = true) :
    ServeHTTP self ord r =
      { calls := elems.map (operationOf (requestContext r)),
        outcome := Outcome.responded (okJson (Body.results
          (elems.map (fun e => self.Executor (operationOf (requestContext r) e))))) } := by
  rw [ServeHTTP_post self ord r hm]
  simp only [servePost, hops, dispatch, batchLoop_of_isOperation self (requestContext r) elems hwf]

/-- Witness of C5 amended: the batch of the two operations
`{"query": "{ version }"}` and `{}`. -/
theorem post_batch_dispatches_in_order_witness :
    ServeHTTP echoHandler visitInOrder
        (postJson (Value.arr [Value.obj opVersion, Value.obj emptyFields])) =
      { calls := [Value.obj opVersion, Value.obj emptyFields].map
          (operationOf (requestContext
            (postJson (Value.arr [Value.obj opVersion, Value.obj emptyFields])))),
        outcome := Outcome.responded (okJson (Body.results
          ([Value.obj opVersion, Value.obj emptyFields].map
            (fun e => echoHandler.Executor (operationOf (requestContext
              (postJson (Value.arr [Value.obj opVersion, Value.obj emptyFields]))) e))))) } :=
  post_batch_dispatches_in_order echoHandler visitInOrder
    (postJson (Value.arr [Value.obj opVersion, Value.obj emptyFields]))
    [Value.obj opVersion, Value.obj emptyFields] rfl rfl (by decide)

/-- C8, as stated, fails: a multipart POST request whose operations decode to
the string "x", neither a mapping nor a sequence, and whose uploads map
declares a path, does not answer 400: `set` panics on the string before the
type switch is reached. -/
theorem multipart_string_operations_panics :
    isContainer (Value.str "x") = false ∧
      ServeHTTP echoHandler visitInOrder (postMultipart (formWith mapOneFile (Value.str "x"))) =
        aborted GoPanic.typeAssertion :=
  ⟨rfl, rfl⟩

/-- C8, amended: a POST request is answered with the status 400, the
Executor not invoked, when its content type is none of `text/plain`,
`application/json` and `multipart/form-data`, when the value of `operations`
that reaches the type switch is neither a mapping nor a sequence, and so in
particular when a JSON or text body decodes to such a value.  When the
`operations` field of a parsed multipart form decodes to such a value, the
Executor is not invoked either, and the request ends with the status 400 if
the `map` field decodes, every key of the map has a file part and no key
declares a path; it ends in a panic, without response, if the `map` field does
not decode, if some key of the map has no file part, or, on the type assertion
of `set`, if every key has a file part and some key declares a path. -/
theorem post_invalid_shape_rejected {ρ : Type} (self : Handler ρ) (ord : RangeOrder)
    (r : HttpRequest) (hm : r.Method = "POST") :
    (beforeSemicolon (headerGet r.Header "Content-Type") ≠ "text/plain" →
      beforeSemicolon (headerGet r.Header "Content-Type") ≠ "application/json" →
      beforeSemicolon (headerGet r.Header "Content-Type") ≠ "multipart/form-data" →
      ServeHTTP self ord r = rejected badRequestEmpty) ∧
    (∀ v, postOperations self ord r = Except.ok v → isContainer v = false →
      ServeHTTP self ord r = rejected badRequestEmpty) ∧
    (∀ v, (beforeSemicolon (headerGet r.Header "Content-Type") = "text/plain" ∨
        beforeSemicolon (headerGet r.Header "Content-Type") = "application/json") →
      r.body = some v → isContainer v = false →
      ServeHTTP self ord r = rejected badRequestEmpty) ∧
    (∀ form v,
      beforeSemicolon (headerGet r.Header "Content-Type") = "multipart/form-data" →
      r.multipartForm self.MaxBodySize = some form → form.operations = some v →
      isContainer v = false →
      (form.uploadsMap = none → ServeHTTP self ord r = aborted GoPanic.error) ∧
      (∀ uploadsMap, form.uploadsMap = some uploadsMap →
        partsPresent form uploadsMap.entries = false →
        ServeHTTP self ord r = aborted GoPanic.error) ∧
      (∀ uploadsMap, form.uploadsMap = some uploadsMap →
        partsPresent form uploadsMap.entries = true →
        mapDeclaresPath uploadsMap.entries = false →
        ServeHTTP self ord r = rejected badRequestEmpty) ∧
      (∀ uploadsMap, form.uploadsMap = some uploadsMap →
        partsPresent form uploadsMap.entries = true →
        mapDeclaresPath uploadsMap.entries = true →
        ServeHTTP self ord r = aborted GoPanic.typeAssertion)) := by
  rw [ServeHTTP_post self ord r hm]
  have hshape : ∀ v, postOperations self ord r = Except.ok v → isContainer v = false →
      servePost self ord r = rejected badRequestEmpty := by
    intro v hv hc
    simp only [servePost, hv, dispatch_not_container self (requestContext r) v hc]
  have habort : ∀ p, postOperations self ord r = Except.error p →
      servePost self ord r = aborted p := by
    intro p hp
    simp only [servePost, hp, aborted]
  refine ⟨?_, hshape, ?_, ?_⟩
  · intro h1 h2 h3
    exact hshape Value.null (by simp [postOperations, h1, h2, h3]) rfl
  · intro v hct hbody hc
    exact hshape v (by simp [postOperations, hct, hbody]) hc
  · intro form v hct hform hops hc
    have hpost : postOperations self ord r = multipartOperations self ord r := by
      simp [postOperations, hct]
    have hpresent : ∀ uploadsMap, form.uploadsMap = some uploadsMap →
        partsPresent form uploadsMap.entries = true →
        postOperations self ord r =
          if mapDeclaresPath uploadsMap.entries then Except.error GoPanic.typeAssertion
          else Except.ok v := by
      intro uploadsMap hmap hparts
      obtain ⟨uploads, hopen, hdecl⟩ := openUploads_of_partsPresent form uploadsMap.entries hparts
      rw [hpost]
      simp only [multipartOperations, hform, hmap, hopen, hops,
        setUploads_not_container v hc (ord.visit uploads),
        declaresPath_perm (ord.visit uploads) uploads (ord.visit_perm uploads), hdecl]
    refine ⟨?_, ?_, ?_, ?_⟩
    · intro hmap
      apply habort
      rw [hpost]
      simp only [multipartOperations, hform, hmap]
    · intro uploadsMap hmap hparts
      apply habort
      rw [hpost]
      simp only [multipartOperations, hform, hmap,
        openUploads_of_part_missing form uploadsMap.entries hparts]
    · intro uploadsMap hmap hparts hdecl
      have h := hpresent uploadsMap hmap hparts
      rw [hdecl] at h
      exact hshape v h hc
    · intro uploadsMap hmap hparts hdecl
      have h := hpresent uploadsMap hmap hparts
      rw [hdecl] at h
      exact habort GoPanic.typeAssertion h

/-- Witness of C8 amended: a POST request of type `application/xml`; a JSON
body that is the string "x"; and three multipart forms whose operations are
the string "x", with the maps `{"0": []}` (400), `{"9": []}` (no file part 9:
panic) and `{"0": ["variables.files.0"]}` (panic in `set`). -/
theorem post_invalid_shape_rejected_witness :
    ServeHTTP echoHandler visitInOrder postXml = rejected badRequestEmpty ∧
      ServeHTTP echoHandler visitInOrder (postJson (Value.str "x")) = rejected badRequestEmpty ∧
      ServeHTTP echoHandler visitInOrder (postMultipart (formWith mapNoPath (Value.str "x"))) =
        rejected badRequestEmpty ∧
      ServeHTTP echoHandler visitInOrder
          (postMultipart (formWith mapNoFilePart (Value.str "x"))) =
        aborted GoPanic.error ∧
      ServeHTTP echoHandler visitInOrder (postMultipart (formWith mapOneFile (Value.str "x"))) =
        aborted GoPanic.typeAssertion :=
  ⟨(post_invalid_shape_rejected echoHandler visitInOrder postXml rfl).1
      (by decide) (by decide) (by decide),
    (post_invalid_shape_rejected echoHandler visitInOrder (postJson (Value.str "x")) rfl).2.2.1
      (Value.str "x") (Or.inr (by decide)) rfl rfl,
    ((post_invalid_shape_rejected echoHandler visitInOrder
      (postMultipart (formWith mapNoPath (Value.str "x"))) rfl).2.2.2
      (formWith mapNoPath (Value.str "x")) (Value.str "x") (by decide) rfl rfl rfl).2.2.1
      mapNoPath rfl (by decide) (by decide),
    ((post_invalid_shape_rejected echoHandler visitInOrder
      (postMultipart (formWith mapNoFilePart (Value.str "x"))) rfl).2.2.2
      (formWith mapNoFilePart (Value.str "x")) (Value.str "x") (by decide) rfl rfl rfl).2.1
      mapNoFilePart rfl (by decide),
    ((post_invalid_shape_rejected echoHandler visitInOrder
      (postMultipart (formWith mapOneFile (Value.str "x"))) rfl).2.2.2
      (formWith mapOneFile (Value.str "x")) (Value.str "x") (by decide) rfl rfl rfl).2.2.2
      mapOneFile rfl (by decide) (by decide)⟩

/-- C9, as stated, fails: in the GET request `?query={ version }&variables=null`
the parameter `variables` is present and is no JSON object, and the handler
invokes the Executor, with the nil map as variables, and answers 200. -/
theorem get_null_variables_invokes_executor :
    getNullVariables.variablesParam = some (some Value.null) ∧
      isMapping Value.null = false ∧
      ServeHTTP echoHandler visitInOrder getNullVariables =
        invokedOnce echoHandler
          { OperationName := "", Query := "{ version }", Variables := none,
            Context := requestContext getNullVariables } :=
  ⟨rfl, rfl, rfl⟩

/-- C9, amended: for every GET request the Executor is invoked, exactly once
and with the Operation whose query and operationName are the parameters of the
query string, if and only if `query` is not empty and `variables` is absent
(the variables are then the empty mapping), is a JSON object (the variables
are its mapping) or is the JSON `null` (the variables are the nil mapping); in
every other case, an empty `query`, a `variables` that is no JSON text or one
that is neither an object nor `null`, the Executor is not invoked and the
response is a 400 with the text `Missing query` or `Bad variables`. -/
theorem get_dispatch {ρ : Type} (self : Handler ρ) (ord : RangeOrder) (r : HttpRequest)
    (hm : r.Method = "GET") :
    (r.query = "" → ServeHTTP self ord r = rejected (badRequestText "Missing query")) ∧
    (r.query ≠ "" → r.variablesParam = none →
      ServeHTTP self ord r = invokedOnce self (getRequest r (some emptyFields))) ∧
    (r.query ≠ "" → ∀ fields, r.variablesParam = some (some (Value.obj fields)) →
      ServeHTTP self ord r = invokedOnce self (getRequest r (some fields))) ∧
    (r.query ≠ "" → r.variablesParam = some (some Value.null) →
      ServeHTTP self ord r = invokedOnce self (getRequest r none)) ∧
    (r.query ≠ "" → r.variablesParam = some none →
      ServeHTTP self ord r = rejected (badRequestText "Bad variables")) ∧
    (r.query ≠ "" → ∀ v, r.variablesParam = some (some v) → isMapping v = false →
      isNull v = false → ServeHTTP self ord r = rejected (badRequestText "Bad variables")) ∧
    ((ServeHTTP self ord r).calls ≠ [] ↔
      r.query ≠ "" ∧ (r.variablesParam = none ∨
        ∃ v, r.variablesParam = some (some v) ∧ (isMapping v = true ∨ isNull v = true))) := by
  rw [ServeHTTP_get self ord r hm]
  have hlen : r.query ≠ "" → ¬ r.query.length = 0 := fun hq hl =>
    hq ((string_length_eq_zero r.query).1 hl)
  have h1 : r.query = "" → serveGet self r = rejected (badRequestText "Missing query") := by
    intro hq
    simp [serveGet, hq, rejected]
  have h2 : r.query ≠ "" → r.variablesParam = none →
      serveGet self r = invokedOnce self (getRequest r (some emptyFields)) := by
    intro hq hv
    simp [serveGet, hlen hq, hv, invokedOnce, getRequest]
  have h3 : r.query ≠ "" → ∀ fields, r.variablesParam = some (some (Value.obj fields)) →
      serveGet self r = invokedOnce self (getRequest r (some fields)) := by
    intro hq fields hv
    simp [serveGet, hlen hq, hv, unmarshalVariables, invokedOnce, getRequest]
  have h4 : r.query ≠ "" → r.variablesParam = some (some Value.null) →
      serveGet self r = invokedOnce self (getRequest r none) := by
    intro hq hv
    simp [serveGet, hlen hq, hv, unmarshalVariables, invokedOnce, getRequest]
  have h5 : r.query ≠ "" → r.variablesParam = some none →
      serveGet self r = rejected (badRequestText "Bad variables") := by
    intro hq hv
    simp [serveGet, hlen hq, hv, unmarshalVariables, rejected]
  have h6 : r.query ≠ "" → ∀ v, r.variablesParam = some (some v) → isMapping v = false →
      isNull v = false → serveGet self r = rejected (badRequestText "Bad variables") := by
    intro hq v hv hmap hnull
    cases v <;> simp [isMapping, isNull] at hmap hnull <;>
      simp [serveGet, hlen hq, hv, unmarshalVariables, rejected]
  refine ⟨h1, h2, h3, h4, h5, h6, ?_⟩
  by_cases hq : r.query = ""
  · rw [h1 hq]
    simp [rejected, hq]
  · cases hv : r.variablesParam with
    | none =>
      rw [h2 hq hv]
      simp [invokedOnce, hq]
    | some text =>
      cases text with
      | none =>
        rw [h5 hq hv]
        simp [rejected]
      | some v =>
        by_cases hmap : isMapping v = true
        · cases v <;> simp [isMapping] at hmap
          rename_i fields
          rw [h3 hq fields hv]
          simp [invokedOnce, hq, isMapping]
        · by_cases hnull : isNull v = true
          · cases v <;> simp [isNull] at hnull
            rw [h4 hq hv]
            simp [invokedOnce, hq, isNull]
          · have hmapf : isMapping v = false := by simpa using hmap
            have hnullf : isNull v = false := by simpa using hnull
            rw [h6 hq v hv hmapf hnullf]
            simp [rejected, hmapf, hnullf]

/-- Witness of C9 amended: the GET request with the query `{ version }` and no
variables. -/
theorem get_dispatch_witness :
    ServeHTTP echoHandler visitInOrder getVersion =
      invokedOnce echoHandler (getRequest getVersion (some emptyFields)) :=
  (get_dispatch echoHandler visitInOrder getVersion rfl).2.1 (by decide) rfl

/-- C10, the code at the failing input: the single body
`{"query": "{ version }", "operationName": null}` is dispatched to the
Executor with the operation name "", while the batch of that one mapping
panics on the type assertion of `operationName` and the Executor is not
invoked. -/
theorem batch_panics_on_null_operationName :
    ServeHTTP echoHandler visitInOrder (postJson (Value.obj opNullName)) =
        invokedOnce echoHandler
          { OperationName := "", Query := "{ version }", Variables := none,
            Context := requestContext (postJson (Value.obj opNullName)) } ∧
      ServeHTTP echoHandler visitInOrder (postJson (Value.arr [Value.obj opNullName])) =
        aborted GoPanic.typeAssertion :=
  ⟨rfl, rfl⟩

end GraphqlUpload
